import Mathlib

/-!
Shallow embedding of the balance-computation engine of the Evenly backend
(`src/routes/balance.routes.js`, `src/routes/expense.routes.js`, and the
legacy variant of `expense.routes.js` preserved in `src/unnamed/part_002`).

Monetary amounts are embedded as rationals (`ℚ`): the JavaScript source
performs plain floating-point arithmetic and the spec's arithmetic is
expressed in real-number terms; all claims in scope are about exact
arithmetic, so `ℚ` renders every division exactly.

JavaScript plain objects used as maps are embedded either as total
functions `String → _` guarded by key membership (for the `balances` /
`memberStats` objects whose key set is fixed up front to the group member
list), or as insertion-ordered association lists (for the dynamically
grown `owedByGroup` and `monthlyExpenses` objects). `Object.entries`
enumerates keys in first-insertion order; `memKeys` reproduces that order
for an object initialised by `members.forEach(m => obj[m] = ...)`.
-/

namespace Evenly

/-- An expense record (`src/models/expense.model.js`).  The `month` field
stands for the `YYYY-MM` string that `calculateExpenseSummary` derives
from the expense's `date` via `new Date(e.date).toISOString().slice(0,7)`;
the date→month derivation itself is outside the claims. -/
structure Expense where
  groupId : String
  amount : ℚ
  paidBy : String
  splitAmong : List String
  month : String
deriving DecidableEq, Repr

/-- A settlement record (`src/unnamed/part_000`, settlement schema). -/
structure Settlement where
  groupId : String
  paidBy : String
  paidTo : String
  amount : ℚ
deriving DecidableEq, Repr

/-- Key set of a JS object initialised by `members.forEach(m => obj[m] = ...)`:
first-insertion order, duplicates collapsed (re-assigning an existing key
neither duplicates it nor moves it). -/
def memKeys (members : List String) : List String :=
  members.foldl (fun acc m => if m ∈ acc then acc else acc ++ [m]) []

/-- The guard `!e.splitAmong || e.splitAmong.length === 0 || !e.amount || e.amount <= 0`
under which `calculateBalances`, `calculateGroupBalances` and
`calculateUserOwes` skip an expense. -/
def skipExpense (e : Expense) : Prop :=
  e.splitAmong = [] ∨ e.amount ≤ 0

instance (e : Expense) : Decidable (skipExpense e) := by
  unfold skipExpense; infer_instance

/-! ## Signed user-balance view: `calculateBalances` (`src/routes/expense.routes.js`) -/

/-- One step of the `expenses.forEach` loop of `calculateBalances`
(`src/routes/expense.routes.js` lines 666–689): skip invalid expenses,
credit the payer `perPersonAmount * payingMembers.length` (only when the
payer is a key of `balances` and `payingMembers` is non-empty), and charge
every non-payer split participant that is a key of `balances`. -/
def applyExpenseSigned (members : List String) (bal : String → ℚ) (e : Expense) : String → ℚ :=
  if skipExpense e then bal
  else
    let perPersonAmount : ℚ := e.amount / (e.splitAmong.length : ℚ)
    let payingMembers := e.splitAmong.filter (fun m => m ≠ e.paidBy)
    let bal1 : String → ℚ :=
      if e.paidBy ∈ members ∧ 0 < payingMembers.length then
        Function.update bal e.paidBy (bal e.paidBy + perPersonAmount * (payingMembers.length : ℚ))
      else bal
    payingMembers.foldl
      (fun b m => if m ∈ members then Function.update b m (b m - perPersonAmount) else b) bal1

/-- One step of the `settlements.forEach` loop of `calculateBalances`
(`src/routes/expense.routes.js` lines 691–699): `balances[paidBy] += amount`,
`balances[paidTo] -= amount`, each guarded by key existence. -/
def applySettlementSigned (members : List String) (bal : String → ℚ) (s : Settlement) :
    String → ℚ :=
  let bal1 : String → ℚ :=
    if s.paidBy ∈ members then Function.update bal s.paidBy (bal s.paidBy + s.amount) else bal
  if s.paidTo ∈ members then Function.update bal1 s.paidTo (bal1 s.paidTo - s.amount) else bal1

/-- An entry of the `youOwe` / `youAreOwed` output lists. -/
structure UserAmount where
  user : String
  amount : ℚ
deriving DecidableEq, Repr

/-- Output of `calculateBalances` (the spec's `computeUserBalances`). -/
structure UserBalances where
  totalBalance : ℚ
  youOwe : List UserAmount
  youAreOwed : List UserAmount
deriving DecidableEq, Repr

/-- Stable insertion of one entry into a list sorted descending by amount,
placing the new entry after existing entries of equal amount — the effect
of the JS `sort((a, b) => b.amount - a.amount)` on the pushed order. -/
def insertDesc (x : UserAmount) : List UserAmount → List UserAmount
  | [] => [x]
  | y :: ys => if y.amount < x.amount then x :: y :: ys else y :: insertDesc x ys

/-- Stable descending-by-amount sort, the semantics of the JS
`list.sort((a, b) => b.amount - a.amount)`. -/
def sortDescAmount : List UserAmount → List UserAmount
  | [] => []
  | x :: xs => insertDesc x (sortDescAmount xs)

/-- The `Object.entries(balances).forEach` formatting loop shared verbatim by
both `calculateBalances` variants: record the current user's balance as
`totalBalance`, push positive balances onto `youOwe` and negative ones onto
`youAreOwed` (absolute value), then sort both lists descending by amount. -/
def formatBalances (currentUserEmail : String) (members : List String) (bal : String → ℚ) :
    UserBalances :=
  let st :=
    (memKeys members).foldl
      (fun (st : List UserAmount × List UserAmount × ℚ) m =>
        if m = currentUserEmail then (st.1, st.2.1, bal m)
        else if 0 < bal m then (st.1 ++ [⟨m, |bal m|⟩], st.2.1, st.2.2)
        else if bal m < 0 then (st.1, st.2.1 ++ [⟨m, |bal m|⟩], st.2.2)
        else st)
      ([], [], 0)
  { totalBalance := st.2.2
    youOwe := sortDescAmount st.1
    youAreOwed := sortDescAmount st.2.1 }

/-- `calculateBalances` of `src/routes/expense.routes.js` (the spec's
`computeUserBalances`, current/self-exclusive payer-credit variant). -/
def calculateBalances (currentUserEmail : String) (groupMembers : List String)
    (expenses : List Expense) (settlements : List Settlement) : UserBalances :=
  let bal0 : String → ℚ := fun _ => 0
  let bal1 := expenses.foldl (applyExpenseSigned groupMembers) bal0
  let bal2 := settlements.foldl (applySettlementSigned groupMembers) bal1
  formatBalances currentUserEmail groupMembers bal2

/-! ## Legacy signed variant: `calculateBalances` of `src/unnamed/part_002` -/

/-- One step of the `expenses.forEach` loop of the legacy `calculateBalances`
(`src/unnamed/part_002` lines 692–712): skip only empty splits, credit the
payer the full `amount`, and charge every split participant (the payer
included) that is a key of `balances`. -/
def applyExpenseSignedOld (members : List String) (bal : String → ℚ) (e : Expense) :
    String → ℚ :=
  if e.splitAmong = [] then bal
  else
    let perPersonAmount : ℚ := e.amount / (e.splitAmong.length : ℚ)
    let bal1 : String → ℚ :=
      if e.paidBy ∈ members then
        Function.update bal e.paidBy (bal e.paidBy + e.amount)
      else bal
    e.splitAmong.foldl
      (fun b m => if m ∈ members then Function.update b m (b m - perPersonAmount) else b) bal1

/-- The legacy `calculateBalances` of `src/unnamed/part_002` (self-inclusive
payer-credit variant); its settlement loop and formatting are identical to
the current variant. -/
def calculateBalancesOld (currentUserEmail : String) (groupMembers : List String)
    (expenses : List Expense) (settlements : List Settlement) : UserBalances :=
  let bal0 : String → ℚ := fun _ => 0
  let bal1 := expenses.foldl (applyExpenseSignedOld groupMembers) bal0
  let bal2 := settlements.foldl (applySettlementSigned groupMembers) bal1
  formatBalances currentUserEmail groupMembers bal2

/-! ## Gross group-balance view: `calculateGroupBalances` (`src/routes/balance.routes.js`) -/

/-- The `{ owedAmount, owesAmount }` accumulator object kept per member by
`calculateGroupBalances`. -/
structure OwedOwes where
  owedAmount : ℚ
  owesAmount : ℚ
deriving DecidableEq, Repr

/-- One step of the `expenses.forEach` loop of `calculateGroupBalances`
(`src/routes/balance.routes.js` lines 157–178): skip invalid expenses, add
`perPersonAmount` to `owesAmount` of every non-payer split participant that
is a key of `balances`, then add `perPersonAmount * payingMembers.length`
to the payer's `owedAmount` (when the payer is a key and `payingMembers`
is non-empty). -/
def applyExpenseGroup (members : List String) (bal : String → OwedOwes) (e : Expense) :
    String → OwedOwes :=
  if skipExpense e then bal
  else
    let perPersonAmount : ℚ := e.amount / (e.splitAmong.length : ℚ)
    let bal1 :=
      e.splitAmong.foldl
        (fun b m =>
          if m ≠ e.paidBy ∧ m ∈ members then
            Function.update b m { b m with owesAmount := (b m).owesAmount + perPersonAmount }
          else b)
        bal
    let payingMembers := e.splitAmong.filter (fun m => m ≠ e.paidBy)
    if e.paidBy ∈ members ∧ 0 < payingMembers.length then
      Function.update bal1 e.paidBy
        { bal1 e.paidBy with
          owedAmount :=
            (bal1 e.paidBy).owedAmount + perPersonAmount * (payingMembers.length : ℚ) }
    else bal1

/-- One step of the `settlements.forEach` loop of `calculateGroupBalances`
(`src/routes/balance.routes.js` lines 180–188): `balances[paidBy].owedAmount -= amount`
and `balances[paidTo].owesAmount -= amount`, each guarded by key existence. -/
def applySettlementGroup (members : List String) (bal : String → OwedOwes) (s : Settlement) :
    String → OwedOwes :=
  let bal1 :=
    if s.paidBy ∈ members then
      Function.update bal s.paidBy
        { bal s.paidBy with owedAmount := (bal s.paidBy).owedAmount - s.amount }
    else bal
  if s.paidTo ∈ members then
    Function.update bal1 s.paidTo
      { bal1 s.paidTo with owesAmount := (bal1 s.paidTo).owesAmount - s.amount }
  else bal1

/-- An entry of the `calculateGroupBalances` output list. -/
structure GroupBalanceEntry where
  email : String
  owedAmount : ℚ
  owesAmount : ℚ
deriving DecidableEq, Repr

/-- `calculateGroupBalances` of `src/routes/balance.routes.js` (the spec's
`computeGroupBalances`). -/
def calculateGroupBalances (members : List String) (expenses : List Expense)
    (settlements : List Settlement) : List GroupBalanceEntry :=
  let bal0 : String → OwedOwes := fun _ => { owedAmount := 0, owesAmount := 0 }
  let bal1 := expenses.foldl (applyExpenseGroup members) bal0
  let bal2 := settlements.foldl (applySettlementGroup members) bal1
  (memKeys members).map fun m =>
    { email := m, owedAmount := (bal2 m).owedAmount, owesAmount := (bal2 m).owesAmount }

/-! ## Cross-group "what I owe" view: `calculateUserOwes` (`src/routes/balance.routes.js`) -/

/-- `owedByGroup[g][p] += v` with the JS truthy initialisation
(`if (!obj[g]) obj[g] = {}; if (!obj[g][p]) obj[g][p] = 0; obj[g][p] += v`):
re-initialising a falsy (`0`) entry before adding coincides with adding. -/
def addEntry : List (String × ℚ) → String → ℚ → List (String × ℚ)
  | [], p, v => [(p, v)]
  | (p', v') :: t, p, v =>
    if p' = p then (p', v' + v) :: t else (p', v') :: addEntry t p v

/-- Insert-or-add on the outer `owedByGroup` map, keyed by group id. -/
def addOwed : List (String × List (String × ℚ)) → String → String → ℚ →
    List (String × List (String × ℚ))
  | [], g, p, v => [(g, [(p, v)])]
  | (g', m) :: t, g, p, v =>
    if g' = g then (g', addEntry m p v) :: t else (g', m) :: addOwed t g p v

/-- `owedByGroup[g][p] -= v` guarded by the JS truthy check
`owedByGroup[g] && owedByGroup[g][p]`: the subtraction happens only when the
entry exists AND its value is non-zero (a `0` value is falsy and is left
untouched). -/
def subEntry : List (String × ℚ) → String → ℚ → List (String × ℚ)
  | [], _, _ => []
  | (p', v') :: t, p, v =>
    if p' = p then (if v' ≠ 0 then (p', v' - v) :: t else (p', v') :: t)
    else (p', v') :: subEntry t p v

/-- The outer lookup of the settlement adjustment of `calculateUserOwes`. -/
def subOwed : List (String × List (String × ℚ)) → String → String → ℚ →
    List (String × List (String × ℚ))
  | [], _, _, _ => []
  | (g', m) :: t, g, p, v =>
    if g' = g then (g', subEntry m p v) :: t else (g', m) :: subOwed t g p v

/-- One step of the `expenses.forEach` loop of `calculateUserOwes`
(`src/routes/balance.routes.js` lines 206–227): skip invalid expenses, and
for expenses the user participates in but did not pay, accumulate
`perPersonAmount` under `(groupId, paidBy)`. -/
def applyExpenseOwes (userId : String) (m : List (String × List (String × ℚ))) (e : Expense) :
    List (String × List (String × ℚ)) :=
  if skipExpense e then m
  else if userId ∈ e.splitAmong ∧ e.paidBy ≠ userId then
    addOwed m e.groupId e.paidBy (e.amount / (e.splitAmong.length : ℚ))
  else m

/-- One step of the `settlements.forEach` loop of `calculateUserOwes`
(`src/routes/balance.routes.js` lines 229–237): only settlements paid by the
user adjust the map, subtracting the settled amount from the
`(groupId, paidTo)` entry when that entry exists and is non-zero. -/
def applySettlementOwes (userId : String) (m : List (String × List (String × ℚ)))
    (s : Settlement) : List (String × List (String × ℚ)) :=
  if s.paidBy = userId then subOwed m s.groupId s.paidTo s.amount else m

/-- An entry of the `oweDetails` output list of `calculateUserOwes`. -/
structure OweRecord where
  groupId : String
  owedTo : String
  amount : ℚ
deriving DecidableEq, Repr

/-- Output of `calculateUserOwes` (the spec's `computeCrossGroupOwed`). -/
structure OweResult where
  totalAmount : ℚ
  oweDetails : List OweRecord
deriving DecidableEq, Repr

/-- The output-formatting double loop of `calculateUserOwes`
(`src/routes/balance.routes.js` lines 239–251): push every strictly
positive `(groupId, owedTo, amount)` entry and accumulate `totalAmount`. -/
def emitOwes (m : List (String × List (String × ℚ))) : OweResult :=
  let st :=
    m.foldl
      (fun st gp =>
        gp.2.foldl
          (fun (st : ℚ × List OweRecord) pv =>
            if 0 < pv.2 then
              (st.1 + pv.2, st.2 ++ [{ groupId := gp.1, owedTo := pv.1, amount := pv.2 }])
            else st)
          st)
      ((0 : ℚ), ([] : List OweRecord))
  { totalAmount := st.1, oweDetails := st.2 }

/-- The fully accumulated `owedByGroup` object of `calculateUserOwes`: the
state after the expense loop and the settlement loop, before formatting. -/
def owedByGroupMap (userId : String) (expenses : List Expense)
    (settlements : List Settlement) : List (String × List (String × ℚ)) :=
  settlements.foldl (applySettlementOwes userId)
    (expenses.foldl (applyExpenseOwes userId) [])

/-- `calculateUserOwes` of `src/routes/balance.routes.js` (the spec's
`computeCrossGroupOwed`).  The `groups` argument of the JS function is never
read inside the function body; it is kept here for signature fidelity. -/
def calculateUserOwes (userId : String) (expenses : List Expense)
    (settlements : List Settlement) (groups : List String) : OweResult :=
  emitOwes (owedByGroupMap userId expenses settlements)

/-! ## Expense summary: `calculateExpenseSummary` (`src/routes/expense.routes.js`) -/

/-- The `{ totalPaid, totalShare }` accumulator object kept per member by
`calculateExpenseSummary`. -/
structure PaidShare where
  totalPaid : ℚ
  totalShare : ℚ
deriving DecidableEq, Repr

/-- An entry of the `expensesByMember` output list. -/
structure MemberStats where
  user : String
  totalPaid : ℚ
  totalShare : ℚ
deriving DecidableEq, Repr

/-- Output of `calculateExpenseSummary` (the spec's `computeExpenseSummary`). -/
structure ExpenseSummary where
  totalExpenses : ℚ
  monthlyExpenses : List (String × ℚ)
  expensesByMember : List MemberStats
deriving DecidableEq, Repr

/-- One step of the `expenses.forEach` loop of `calculateExpenseSummary`
(`src/routes/expense.routes.js` lines 747–774): skip non-positive amounts
only; add to `totalExpenses` and the month bucket; add to the payer's
`totalPaid` when the payer is a key of `memberStats`; and only when
`splitAmong` is non-empty, add the per-person share to each split
participant's `totalShare`. -/
def applyExpenseSummary (members : List String) (st : ℚ × List (String × ℚ) × (String → PaidShare))
    (e : Expense) : ℚ × List (String × ℚ) × (String → PaidShare) :=
  if e.amount ≤ 0 then st
  else
    let total := st.1 + e.amount
    let monthly := addEntry st.2.1 e.month e.amount
    let stats1 :=
      if e.paidBy ∈ members then
        Function.update st.2.2 e.paidBy
          { st.2.2 e.paidBy with totalPaid := (st.2.2 e.paidBy).totalPaid + e.amount }
      else st.2.2
    let stats2 :=
      if e.splitAmong ≠ [] then
        let perPersonShare := e.amount / (e.splitAmong.length : ℚ)
        e.splitAmong.foldl
          (fun b m =>
            if m ∈ members then
              Function.update b m { b m with totalShare := (b m).totalShare + perPersonShare }
            else b)
          stats1
      else stats1
    (total, monthly, stats2)

/-- `calculateExpenseSummary` of `src/routes/expense.routes.js` (the spec's
`computeExpenseSummary`). -/
def calculateExpenseSummary (groupMembers : List String) (expenses : List Expense) :
    ExpenseSummary :=
  let st0 : ℚ × List (String × ℚ) × (String → PaidShare) :=
    (0, [], fun _ => { totalPaid := 0, totalShare := 0 })
  let st := expenses.foldl (applyExpenseSummary groupMembers) st0
  { totalExpenses := st.1
    monthlyExpenses := st.2.1
    expensesByMember :=
      (memKeys groupMembers).map fun m =>
        { user := m, totalPaid := (st.2.2 m).totalPaid, totalShare := (st.2.2 m).totalShare } }

/-- The well-formedness invariant of the `owedByGroup` map: group keys are
unique, and within each group the payer keys are unique. -/
def OwesMapWF (m : List (String × List (String × ℚ))) : Prop :=
  (m.map Prod.fst).Nodup ∧ ∀ gp ∈ m, (gp.2.map Prod.fst).Nodup

/-! ## Concrete records used by the spec's scenarios -/

/-- The spec's scenario expense `{amount: 90, paidBy: A, splitAmong: [A,B,C]}`. -/
def expABC : Expense :=
  { groupId := "g1", amount := 90, paidBy := "A", splitAmong := ["A", "B", "C"]
    month := "2025-01" }

/-- The spec's scenario settlement `{paidBy: B, paidTo: A, amount: 30}`. -/
def setBA30 : Settlement := { groupId := "g1", paidBy := "B", paidTo := "A", amount := 30 }

/-- The spec's zero-split scenario expense `{amount: 100, splitAmong: []}`. -/
def expEmptySplit : Expense :=
  { groupId := "g1", amount := 100, paidBy := "A", splitAmong := [], month := "2025-01" }

/-- A settlement of 1 from A to B. -/
def setAB1 : Settlement := { groupId := "g1", paidBy := "A", paidTo := "B", amount := 1 }

/-- A settlement of 1 from B to A (the exact inverse of `setAB1`). -/
def setBA1 : Settlement := { groupId := "g1", paidBy := "B", paidTo := "A", amount := 1 }

/-- An expense whose split list reaches outside the group `["A"]`. -/
def expOutside : Expense :=
  { groupId := "g1", amount := 90, paidBy := "A", splitAmong := ["A", "B", "C"]
    month := "2025-01" }

/-- An expense paid by a non-member of the group `["B"]`. -/
def expForeignPayer : Expense :=
  { groupId := "g1", amount := 90, paidBy := "A", splitAmong := ["B"], month := "2025-01" }

/-! ## Unfolding equations for the top-level functions -/

lemma calculateBalances_def (u : String) (members : List String) (expenses : List Expense)
    (settlements : List Settlement) :
    calculateBalances u members expenses settlements
      = formatBalances u members
          (settlements.foldl (applySettlementSigned members)
            (expenses.foldl (applyExpenseSigned members) (fun _ => 0))) := rfl

lemma calculateBalancesOld_def (u : String) (members : List String) (expenses : List Expense)
    (settlements : List Settlement) :
    calculateBalancesOld u members expenses settlements
      = formatBalances u members
          (settlements.foldl (applySettlementSigned members)
            (expenses.foldl (applyExpenseSignedOld members) (fun _ => 0))) := rfl

lemma calculateGroupBalances_def (members : List String) (expenses : List Expense)
    (settlements : List Settlement) :
    calculateGroupBalances members expenses settlements
      = ((memKeys members).map fun m =>
          let bal :=
            settlements.foldl (applySettlementGroup members)
              (expenses.foldl (applyExpenseGroup members)
                (fun _ => { owedAmount := 0, owesAmount := 0 })) m
          { email := m, owedAmount := bal.owedAmount, owesAmount := bal.owesAmount }) := rfl

lemma calculateExpenseSummary_def (groupMembers : List String) (expenses : List Expense) :
    calculateExpenseSummary groupMembers expenses
      = { totalExpenses :=
            (expenses.foldl (applyExpenseSummary groupMembers)
              (0, [], fun _ => { totalPaid := 0, totalShare := 0 })).1
          monthlyExpenses :=
            (expenses.foldl (applyExpenseSummary groupMembers)
              (0, [], fun _ => { totalPaid := 0, totalShare := 0 })).2.1
          expensesByMember :=
            (memKeys groupMembers).map fun m =>
              { user := m
                totalPaid :=
                  ((expenses.foldl (applyExpenseSummary groupMembers)
                    (0, [], fun _ => { totalPaid := 0, totalShare := 0 })).2.2 m).totalPaid
                totalShare :=
                  ((expenses.foldl (applyExpenseSummary groupMembers)
                    (0, [], fun _ => { totalPaid := 0, totalShare := 0 })).2.2 m).totalShare } } :=
  rfl

/-! ## Basic lemmas about `memKeys` and list sums -/

lemma memKeys_go_mem (l : List String) :
    ∀ (acc : List String) (x : String),
      (x ∈ l.foldl (fun acc m => if m ∈ acc then acc else acc ++ [m]) acc) ↔
        x ∈ acc ∨ x ∈ l := by
  induction l with
  | nil => intro acc x; simp
  | cons m t ih =>
    intro acc x
    simp only [List.foldl_cons]
    by_cases hm : m ∈ acc
    · rw [if_pos hm, ih]
      constructor
      · rintro (h | h)
        · exact Or.inl h
        · exact Or.inr (List.mem_cons_of_mem _ h)
      · rintro (h | h)
        · exact Or.inl h
        · rcases List.mem_cons.mp h with rfl | h
          · exact Or.inl hm
          · exact Or.inr h
    · rw [if_neg hm, ih]
      simp only [List.mem_append, List.mem_singleton, List.mem_cons]
      tauto

lemma mem_memKeys (members : List String) (x : String) :
    x ∈ memKeys members ↔ x ∈ members := by
  unfold memKeys
  rw [memKeys_go_mem]
  simp

lemma memKeys_go_nodup (l : List String) :
    ∀ acc : List String, acc.Nodup →
      (l.foldl (fun acc m => if m ∈ acc then acc else acc ++ [m]) acc).Nodup := by
  induction l with
  | nil => intro acc h; simpa using h
  | cons m t ih =>
    intro acc h
    simp only [List.foldl_cons]
    by_cases hm : m ∈ acc
    · rw [if_pos hm]; exact ih acc h
    · rw [if_neg hm]
      refine ih _ ?_
      simp [List.nodup_append, h, hm]

lemma memKeys_nodup (members : List String) : (memKeys members).Nodup :=
  memKeys_go_nodup members [] List.nodup_nil

lemma sum_map_add {α : Type} (l : List α) (f g : α → ℚ) :
    (l.map (fun x => f x + g x)).sum = (l.map f).sum + (l.map g).sum := by
  induction l with
  | nil => simp
  | cons a t ih => simp [ih]; ring

lemma sum_map_sub {α : Type} (l : List α) (f g : α → ℚ) :
    (l.map (fun x => f x - g x)).sum = (l.map f).sum - (l.map g).sum := by
  induction l with
  | nil => simp
  | cons a t ih => simp [ih]; ring

/-- Summing an indicator of a single element over a duplicate-free list. -/
lemma sum_map_indicator (ks : List String) (y : String) (c : ℚ) (hnd : ks.Nodup)
    (hy : y ∈ ks) :
    (ks.map (fun x => if x = y then c else 0)).sum = c := by
  induction ks with
  | nil => cases hy
  | cons k t ih =>
    have hnd' := List.nodup_cons.mp hnd
    by_cases hky : k = y
    · subst hky
      have hsum : (t.map (fun x => if x = k then c else 0)).sum = 0 := by
        apply List.sum_eq_zero
        intro q hq
        rcases List.mem_map.mp hq with ⟨x, hx, rfl⟩
        rw [if_neg]
        rintro rfl
        exact hnd'.1 hx
      simp [hsum]
    · have hyt : y ∈ t := by
        rcases List.mem_cons.mp hy with h | h
        · exact absurd h.symm hky
        · exact h
      simp only [List.map_cons, List.sum_cons, if_neg hky, ih hnd'.2 hyt, zero_add]

/-- Summing occurrence counts of `l` over a duplicate-free list of keys that
contains every element of `l` yields the length of `l`. -/
lemma sum_map_count (ks : List String) (hnd : ks.Nodup) :
    ∀ l : List String, (∀ y ∈ l, y ∈ ks) →
      (ks.map (fun x => ((l.count x : ℕ) : ℚ))).sum = (l.length : ℚ) := by
  intro l
  induction l with
  | nil => intro _; simp
  | cons y t ih =>
    intro hsub
    have hy : y ∈ ks := hsub y (List.mem_cons_self y t)
    have ht : ∀ z ∈ t, z ∈ ks := fun z hz => hsub z (List.mem_cons_of_mem _ hz)
    have hstep : ∀ x : String,
        (((y :: t).count x : ℕ) : ℚ) = ((t.count x : ℕ) : ℚ) + (if x = y then (1 : ℚ) else 0) := by
      intro x
      rcases eq_or_ne x y with rfl | hxy
      · rw [List.count_cons_self, if_pos rfl]; push_cast; ring
      · rw [List.count_cons_of_ne hxy, if_neg hxy, add_zero]
    calc (ks.map (fun x => (((y :: t).count x : ℕ) : ℚ))).sum
        = (ks.map (fun x => ((t.count x : ℕ) : ℚ) + (if x = y then (1 : ℚ) else 0))).sum := by
          exact congrArg List.sum (List.map_congr_left (fun x _ => hstep x))
      _ = (ks.map (fun x => ((t.count x : ℕ) : ℚ))).sum
            + (ks.map (fun x => if x = y then (1 : ℚ) else 0)).sum := sum_map_add ..
      _ = (t.length : ℚ) + 1 := by rw [ih ht, sum_map_indicator ks y 1 hnd hy]
      _ = ((y :: t).length : ℚ) := by simp

/-- Length of the `≠ a` filtration plus the number of occurrences of `a`
recovers the length. -/
lemma length_filter_ne_add_count (l : List String) (a : String) :
    (l.filter (fun m => m ≠ a)).length + l.count a = l.length := by
  induction l with
  | nil => simp
  | cons x t ih =>
    by_cases hxa : x = a
    · subst hxa
      rw [List.filter_cons_of_neg (by simp), List.count_cons_self]
      simp only [List.length_cons]
      omega
    · rw [List.filter_cons_of_pos (by simp [hxa]), List.count_cons_of_ne (Ne.symm hxa)]
      simp only [List.length_cons]
      omega

/-- An element never occurs in the list filtered to exclude it. -/
lemma count_filter_ne_self (l : List String) (a : String) :
    (l.filter (fun m => m ≠ a)).count a = 0 := by
  rw [List.count_eq_zero]
  intro h
  have := (List.mem_filter.mp h).2
  simp at this

/-- Occurrences of `x ≠ a` survive the `≠ a` filtration. -/
lemma count_filter_ne_of_ne (l : List String) (a x : String) (hxa : x ≠ a) :
    (l.filter (fun m => m ≠ a)).count x = l.count x := by
  induction l with
  | nil => simp
  | cons y t ih =>
    by_cases hya : y = a
    · subst hya
      rw [List.filter_cons_of_neg (by simp), List.count_cons_of_ne hxa, ih]
    · rw [List.filter_cons_of_pos (by simp [hya])]
      by_cases hxy : x = y
      · subst hxy
        rw [List.count_cons_self, List.count_cons_self, ih]
      · rw [List.count_cons_of_ne hxy, List.count_cons_of_ne hxy, ih]

/-! ## Pointwise characterisation of the signed balance folds -/

/-- The charging loop `payingMembers.forEach(m => balances[m] -= perPersonAmount)`
subtracts `perPersonAmount` once per occurrence, and only touches keys of the
balances object. -/
lemma foldl_charge (members : List String) (p : ℚ) :
    ∀ (l : List String) (b : String → ℚ) (x : String),
      l.foldl (fun b m => if m ∈ members then Function.update b m (b m - p) else b) b x
        = b x - (if x ∈ members then ((l.count x : ℕ) : ℚ) * p else 0) := by
  intro l
  induction l with
  | nil => intro b x; simp
  | cons m t ih =>
    intro b x
    simp only [List.foldl_cons]
    rw [ih]
    by_cases hm : m ∈ members
    · rw [if_pos hm]
      by_cases hx : x ∈ members
      · rw [if_pos hx, if_pos hx]
        by_cases hxm : x = m
        · subst hxm
          rw [Function.update_same, List.count_cons_self]
          push_cast
          ring
        · rw [Function.update_noteq hxm, List.count_cons_of_ne hxm]
      · rw [if_neg hx, if_neg hx]
        have hxm : x ≠ m := by rintro rfl; exact hx hm
        rw [Function.update_noteq hxm]
    · rw [if_neg hm]
      by_cases hx : x ∈ members
      · rw [if_pos hx, if_pos hx]
        have hxm : x ≠ m := by rintro rfl; exact hm hx
        rw [List.count_cons_of_ne hxm]
      · rw [if_neg hx, if_neg hx]

/-- Closed form for one expense step of the current (self-exclusive)
`calculateBalances`: the payer gains `perPersonAmount * payingMembers.length`
and every key of the balances object loses `perPersonAmount` per occurrence
in `payingMembers`. -/
lemma applyExpenseSigned_apply (members : List String) (b : String → ℚ) (e : Expense)
    (h : ¬ skipExpense e) (x : String) :
    applyExpenseSigned members b e x =
      b x
        + (if x = e.paidBy ∧ e.paidBy ∈ members ∧
              0 < (e.splitAmong.filter (fun m => m ≠ e.paidBy)).length then
            (e.amount / (e.splitAmong.length : ℚ))
              * (((e.splitAmong.filter (fun m => m ≠ e.paidBy)).length : ℕ) : ℚ)
          else 0)
        - (if x ∈ members then
            (((e.splitAmong.filter (fun m => m ≠ e.paidBy)).count x : ℕ) : ℚ)
              * (e.amount / (e.splitAmong.length : ℚ))
          else 0) := by
  unfold applyExpenseSigned
  rw [if_neg h]
  rw [foldl_charge]
  congr 1
  by_cases hpay : e.paidBy ∈ members ∧
      0 < (e.splitAmong.filter (fun m => m ≠ e.paidBy)).length
  · rw [if_pos hpay]
    by_cases hx : x = e.paidBy
    · subst hx
      rw [Function.update_same, if_pos ⟨rfl, hpay⟩]
    · rw [Function.update_noteq hx, if_neg (by tauto), add_zero]
  · rw [if_neg hpay, if_neg (by tauto), add_zero]

/-- Closed form for one expense step of the legacy (self-inclusive)
`calculateBalances` of `src/unnamed/part_002`: the payer gains the full
`amount` and every key of the balances object loses `perPersonAmount` per
occurrence in `splitAmong`. -/
lemma applyExpenseSignedOld_apply (members : List String) (b : String → ℚ) (e : Expense)
    (h : e.splitAmong ≠ []) (x : String) :
    applyExpenseSignedOld members b e x =
      b x
        + (if x = e.paidBy ∧ e.paidBy ∈ members then e.amount else 0)
        - (if x ∈ members then
            ((e.splitAmong.count x : ℕ) : ℚ) * (e.amount / (e.splitAmong.length : ℚ))
          else 0) := by
  unfold applyExpenseSignedOld
  rw [if_neg h]
  rw [foldl_charge]
  congr 1
  by_cases hpay : e.paidBy ∈ members
  · rw [if_pos hpay]
    by_cases hx : x = e.paidBy
    · subst hx
      rw [Function.update_same, if_pos ⟨rfl, hpay⟩]
    · rw [Function.update_noteq hx, if_neg (by tauto), add_zero]
  · rw [if_neg hpay, if_neg (by tauto), add_zero]

/-- Closed form for one settlement step of both `calculateBalances` variants:
the settlement payer gains `amount`, the receiver loses `amount`, restricted
to keys of the balances object. -/
lemma applySettlementSigned_apply (members : List String) (b : String → ℚ) (s : Settlement)
    (x : String) :
    applySettlementSigned members b s x =
      b x + (if x = s.paidBy ∧ s.paidBy ∈ members then s.amount else 0)
          - (if x = s.paidTo ∧ s.paidTo ∈ members then s.amount else 0) := by
  unfold applySettlementSigned
  by_cases h1 : s.paidBy ∈ members <;> by_cases h2 : s.paidTo ∈ members <;>
    by_cases h3 : x = s.paidBy <;> by_cases h4 : x = s.paidTo <;>
    by_cases h5 : s.paidTo = s.paidBy <;>
    simp_all [Function.update_apply]

lemma not_skipExpense (e : Expense) :
    ¬ skipExpense e ↔ e.splitAmong ≠ [] ∧ 0 < e.amount := by
  unfold skipExpense
  push_neg
  tauto

lemma sum_map_mul_right {α : Type} (l : List α) (f : α → ℚ) (c : ℚ) :
    (l.map (fun x => f x * c)).sum = (l.map f).sum * c := by
  induction l with
  | nil => simp
  | cons a t ih => simp [ih]; ring

lemma splitAmong_length_cast_ne_zero (e : Expense) (hsplit : e.splitAmong ≠ []) :
    ((e.splitAmong.length : ℕ) : ℚ) ≠ 0 := by
  have : e.splitAmong.length ≠ 0 := by
    simpa using List.length_pos.mpr hsplit |>.ne'
  exact_mod_cast this

/-- Cast form of `length_filter_ne_add_count`, specialised to the
`payingMembers` filtration of an expense. -/
lemma payingMembers_length_cast (e : Expense) :
    (((e.splitAmong.filter (fun m => m ≠ e.paidBy)).length : ℕ) : ℚ)
      = ((e.splitAmong.length : ℕ) : ℚ) - ((e.splitAmong.count e.paidBy : ℕ) : ℚ) := by
  have h := length_filter_ne_add_count e.splitAmong e.paidBy
  have : (((e.splitAmong.filter (fun m => m ≠ e.paidBy)).length
      + e.splitAmong.count e.paidBy : ℕ) : ℚ) = ((e.splitAmong.length : ℕ) : ℚ) := by
    exact_mod_cast congrArg (fun n : ℕ => (n : ℚ)) h
  push_cast at this
  linarith

/-! ## Pointwise characterisation of the gross group-balance folds -/

/-- The charging loop of `calculateGroupBalances` adds `perPersonAmount` to
`owesAmount` once per occurrence of a non-payer key. -/
lemma foldl_owes (members : List String) (paidBy : String) (p : ℚ) :
    ∀ (l : List String) (b : String → OwedOwes) (x : String),
      l.foldl
        (fun b m =>
          if m ≠ paidBy ∧ m ∈ members then
            Function.update b m { b m with owesAmount := (b m).owesAmount + p }
          else b) b x
        = { owedAmount := (b x).owedAmount
            owesAmount := (b x).owesAmount
              + (if x ≠ paidBy ∧ x ∈ members then ((l.count x : ℕ) : ℚ) * p else 0) } := by
  intro l
  induction l with
  | nil => intro b x; simp
  | cons m t ih =>
    intro b x
    simp only [List.foldl_cons]
    rw [ih]
    by_cases hm : m ≠ paidBy ∧ m ∈ members
    · rw [if_pos hm]
      by_cases hxm : x = m
      · subst hxm
        rw [if_pos hm, if_pos hm, Function.update_same, List.count_cons_self]
        simp only [OwedOwes.mk.injEq, true_and]
        push_cast
        ring
      · rw [Function.update_noteq hxm, List.count_cons_of_ne hxm]
    · rw [if_neg hm]
      by_cases hx : x ≠ paidBy ∧ x ∈ members
      · rw [if_pos hx, if_pos hx]
        have hxm : x ≠ m := by rintro rfl; exact hm hx
        rw [List.count_cons_of_ne hxm]
      · rw [if_neg hx, if_neg hx]

/-- Closed form for one expense step of `calculateGroupBalances`: non-payer
keys in the split gain `perPersonAmount` of `owesAmount` per occurrence and
the payer key gains `perPersonAmount * payingMembers.length` of
`owedAmount`. -/
lemma applyExpenseGroup_apply (members : List String) (b : String → OwedOwes) (e : Expense)
    (h : ¬ skipExpense e) (x : String) :
    applyExpenseGroup members b e x =
      { owedAmount := (b x).owedAmount
          + (if x = e.paidBy ∧ e.paidBy ∈ members ∧
                0 < (e.splitAmong.filter (fun m => m ≠ e.paidBy)).length then
              (e.amount / (e.splitAmong.length : ℚ))
                * (((e.splitAmong.filter (fun m => m ≠ e.paidBy)).length : ℕ) : ℚ)
            else 0)
        owesAmount := (b x).owesAmount
          + (if x ≠ e.paidBy ∧ x ∈ members then
              ((e.splitAmong.count x : ℕ) : ℚ) * (e.amount / (e.splitAmong.length : ℚ))
            else 0) } := by
  unfold applyExpenseGroup
  rw [if_neg h]
  have hb := foldl_owes members e.paidBy (e.amount / (e.splitAmong.length : ℚ)) e.splitAmong b
  by_cases hpay : e.paidBy ∈ members ∧
      0 < (e.splitAmong.filter (fun m => m ≠ e.paidBy)).length
  · rw [if_pos hpay]
    by_cases hx : x = e.paidBy
    · subst hx
      rw [Function.update_same, hb]
      rw [if_neg (fun hcon => hcon.1 rfl :
        ¬(e.paidBy ≠ e.paidBy ∧ e.paidBy ∈ members))]
      rw [if_pos (⟨rfl, hpay⟩ :
        e.paidBy = e.paidBy ∧ e.paidBy ∈ members ∧
          0 < (e.splitAmong.filter (fun m => m ≠ e.paidBy)).length)]
    · rw [Function.update_noteq hx, hb]
      rw [if_neg (fun hcon => hx hcon.1 :
        ¬(x = e.paidBy ∧ e.paidBy ∈ members ∧
          0 < (e.splitAmong.filter (fun m => m ≠ e.paidBy)).length))]
      simp
  · rw [if_neg hpay, hb]
    rw [if_neg (fun hcon => hpay hcon.2 :
      ¬(x = e.paidBy ∧ e.paidBy ∈ members ∧
        0 < (e.splitAmong.filter (fun m => m ≠ e.paidBy)).length))]
    simp

/-- Closed form for one settlement step of `calculateGroupBalances`: the code
subtracts `amount` from the settlement payer's `owedAmount` and from the
receiver's `owesAmount` (guarded by key existence). -/
lemma applySettlementGroup_apply (members : List String) (b : String → OwedOwes)
    (s : Settlement) (x : String) :
    applySettlementGroup members b s x =
      { owedAmount := (b x).owedAmount
          - (if x = s.paidBy ∧ s.paidBy ∈ members then s.amount else 0)
        owesAmount := (b x).owesAmount
          - (if x = s.paidTo ∧ s.paidTo ∈ members then s.amount else 0) } := by
  unfold applySettlementGroup
  by_cases h1 : s.paidBy ∈ members <;> by_cases h2 : s.paidTo ∈ members <;>
    by_cases h3 : x = s.paidBy <;> by_cases h4 : x = s.paidTo <;>
    by_cases h5 : s.paidTo = s.paidBy <;>
    simp_all [Function.update_apply]

/-! ## Skip lemmas: invalid expenses leave every accumulator untouched -/

lemma applyExpenseSigned_skip (members : List String) (b : String → ℚ) (e : Expense)
    (h : skipExpense e) : applyExpenseSigned members b e = b := by
  unfold applyExpenseSigned
  rw [if_pos h]

lemma applyExpenseGroup_skip (members : List String) (b : String → OwedOwes) (e : Expense)
    (h : skipExpense e) : applyExpenseGroup members b e = b := by
  unfold applyExpenseGroup
  rw [if_pos h]

lemma applyExpenseOwes_skip (userId : String) (m : List (String × List (String × ℚ)))
    (e : Expense) (h : skipExpense e) : applyExpenseOwes userId m e = m := by
  unfold applyExpenseOwes
  rw [if_pos h]

/-! ## Claim C5 — group-balance scenario under the self-exclusive policy -/

/-- C5: for members `[A, B, C]`, the single expense
`{amount: 90, paidBy: A, splitAmong: [A, B, C]}` and no settlements,
`calculateGroupBalances` (the spec's `computeGroupBalances`) returns
`owedAmount = 60` for A, `owesAmount = 30` for B and for C, and all other
accumulators zero. -/
lemma expABC_not_skip : ¬ skipExpense expABC := by
  rw [not_skipExpense]
  refine ⟨by simp [expABC], by norm_num [expABC]⟩

lemma groupExpenseA : applyExpenseGroup ["A", "B", "C"]
    (fun _ => { owedAmount := 0, owesAmount := 0 }) expABC "A"
    = { owedAmount := 60, owesAmount := 0 } := by
  rw [applyExpenseGroup_apply _ _ _ expABC_not_skip]
  simp [expABC]
  norm_num

lemma groupExpenseB : applyExpenseGroup ["A", "B", "C"]
    (fun _ => { owedAmount := 0, owesAmount := 0 }) expABC "B"
    = { owedAmount := 0, owesAmount := 30 } := by
  rw [applyExpenseGroup_apply _ _ _ expABC_not_skip]
  simp [expABC]
  norm_num

lemma groupExpenseC : applyExpenseGroup ["A", "B", "C"]
    (fun _ => { owedAmount := 0, owesAmount := 0 }) expABC "C"
    = { owedAmount := 0, owesAmount := 30 } := by
  rw [applyExpenseGroup_apply _ _ _ expABC_not_skip]
  simp [expABC]
  norm_num

/-- Full evaluation of `calculateGroupBalances` on the scenario expense
alone (shared helper). -/
lemma groupBalances_scenario_eval :
    calculateGroupBalances ["A", "B", "C"] [expABC] []
      = [{ email := "A", owedAmount := 60, owesAmount := 0 },
         { email := "B", owedAmount := 0, owesAmount := 30 },
         { email := "C", owedAmount := 0, owesAmount := 30 }] := by
  rw [calculateGroupBalances_def]
  simp [memKeys, groupExpenseA, groupExpenseB, groupExpenseC]

theorem groupBalances_scenario_selfExclusive :
    calculateGroupBalances ["A", "B", "C"] [expABC] []
      = [{ email := "A", owedAmount := 60, owesAmount := 0 },
         { email := "B", owedAmount := 0, owesAmount := 30 },
         { email := "C", owedAmount := 0, owesAmount := 30 }] :=
  groupBalances_scenario_eval

/-! ## Claim C2 — settlement handling of `calculateGroupBalances` (code bug) -/

/-- C2: evaluating `calculateGroupBalances` on the spec scenario — the
expense `{amount: 90, paidBy: A, splitAmong: [A,B,C]}` followed by the
settlement `{paidBy: B, paidTo: A, amount: 30}`.  The spec claims B ends
with `owesAmount = 0` and A with `owedAmount = 30`; the code instead
subtracts the settlement from the payer's `owedAmount` and the recipient's
`owesAmount`, leaving B at `owesAmount = 30` / `owedAmount = -30` and A at
`owedAmount = 60` / `owesAmount = -30`. -/
theorem groupBalances_settlement_scenario_eval :
    calculateGroupBalances ["A", "B", "C"] [expABC] [setBA30]
      = [{ email := "A", owedAmount := 60, owesAmount := -30 },
         { email := "B", owedAmount := -30, owesAmount := 30 },
         { email := "C", owedAmount := 0, owesAmount := 30 }] := by
  rw [calculateGroupBalances_def]
  simp [memKeys, applySettlementGroup_apply, setBA30, groupExpenseA, groupExpenseB,
    groupExpenseC]

/-! ## Claim C6 — current-user balance scenario -/

lemma signedExpenseA : applyExpenseSigned ["A", "B", "C"] (fun _ => 0) expABC "A" = 60 := by
  rw [applyExpenseSigned_apply _ _ _ expABC_not_skip]
  simp [expABC]
  norm_num

lemma signedExpenseB : applyExpenseSigned ["A", "B", "C"] (fun _ => 0) expABC "B" = -30 := by
  rw [applyExpenseSigned_apply _ _ _ expABC_not_skip]
  simp [expABC]
  norm_num

lemma signedExpenseC : applyExpenseSigned ["A", "B", "C"] (fun _ => 0) expABC "C" = -30 := by
  rw [applyExpenseSigned_apply _ _ _ expABC_not_skip]
  simp [expABC]
  norm_num

/-- Full evaluation of `calculateBalances` for user B on the scenario
expense alone: A's positive net balance of 60 lands in `youOwe`. -/
lemma userBalances_before_eval :
    calculateBalances "B" ["A", "B", "C"] [expABC] []
      = { totalBalance := -30, youOwe := [{ user := "A", amount := 60 }]
          youAreOwed := [{ user := "C", amount := 30 }] } := by
  rw [calculateBalances_def, List.foldl_nil, List.foldl_cons, List.foldl_nil]
  rw [formatBalances]
  simp [memKeys, List.foldl_cons, List.foldl_nil, signedExpenseA, signedExpenseB,
    signedExpenseC, sortDescAmount, insertDesc,
    show ¬((0 : ℚ) < -30) by norm_num, show (-30 : ℚ) < 0 by norm_num,
    show (0 : ℚ) < 60 by norm_num, show |(-30 : ℚ)| = 30 by norm_num,
    show |(60 : ℚ)| = 60 by norm_num]

/-- Full evaluation of `calculateBalances` for user B on the scenario
expense plus the settlement: A's remaining net balance of 30 still lands in
`youOwe`. -/
lemma userBalances_after_eval :
    calculateBalances "B" ["A", "B", "C"] [expABC] [setBA30]
      = { totalBalance := 0, youOwe := [{ user := "A", amount := 30 }]
          youAreOwed := [{ user := "C", amount := 30 }] } := by
  have gA : applySettlementSigned ["A", "B", "C"]
      (applyExpenseSigned ["A", "B", "C"] (fun _ => 0) expABC) setBA30 "A" = 30 := by
    rw [applySettlementSigned_apply, signedExpenseA]
    simp [setBA30]
    norm_num
  have gB : applySettlementSigned ["A", "B", "C"]
      (applyExpenseSigned ["A", "B", "C"] (fun _ => 0) expABC) setBA30 "B" = 0 := by
    rw [applySettlementSigned_apply, signedExpenseB]
    simp [setBA30]
  have gC : applySettlementSigned ["A", "B", "C"]
      (applyExpenseSigned ["A", "B", "C"] (fun _ => 0) expABC) setBA30 "C" = -30 := by
    rw [applySettlementSigned_apply, signedExpenseC]
    simp [setBA30]
  rw [calculateBalances_def, List.foldl_cons, List.foldl_nil, List.foldl_cons, List.foldl_nil]
  rw [formatBalances]
  simp [memKeys, List.foldl_cons, List.foldl_nil, gA, gB, gC, sortDescAmount, insertDesc,
    show ¬((0 : ℚ) < -30) by norm_num, show (-30 : ℚ) < 0 by norm_num,
    show (0 : ℚ) < 30 by norm_num, show |(-30 : ℚ)| = 30 by norm_num,
    show |(30 : ℚ)| = 30 by norm_num]

/-- C6 (counterexample): contrary to the claim, `youOwe` is not empty for
user B on the scenario expense — the code files every member with positive
net balance (here A, with 60) under `youOwe`, regardless of whom the debt
is owed to. -/
theorem userBalances_scenario_counterexample :
    (calculateBalances "B" ["A", "B", "C"] [expABC] []).youOwe ≠ [] := by
  rw [userBalances_before_eval]
  simp

/-- C6 (amended): for current user B on the scenario expense,
`calculateBalances` (the spec's `computeUserBalances`) returns
`totalBalance = -30` with `youOwe = [{user: A, amount: 60}]`, and after the
settlement `{paidBy: B, paidTo: A, amount: 30}` it returns
`totalBalance = 0` with `youOwe = [{user: A, amount: 30}]` (the claimed
`totalBalance` values are correct; the claimed empty `youOwe` lists are
not). -/
theorem userBalances_scenario_amended :
    (calculateBalances "B" ["A", "B", "C"] [expABC] []).totalBalance = -30 ∧
    (calculateBalances "B" ["A", "B", "C"] [expABC] []).youOwe
      = [{ user := "A", amount := 60 }] ∧
    (calculateBalances "B" ["A", "B", "C"] [expABC] [setBA30]).totalBalance = 0 ∧
    (calculateBalances "B" ["A", "B", "C"] [expABC] [setBA30]).youOwe
      = [{ user := "A", amount := 30 }] := by
  rw [userBalances_before_eval, userBalances_after_eval]
  exact ⟨rfl, rfl, rfl, rfl⟩

end Evenly

namespace Evenly

/-! ## Claim C3 — settlement symmetry -/

/-- Full evaluation of `calculateGroupBalances` on a settlement pair
`A→B 1` then `B→A 1` with no expenses: both accumulators of both members
drop below zero instead of cancelling (shared helper). -/
lemma groupBalances_inverse_pair_eval :
    calculateGroupBalances ["A", "B"] [] [setAB1, setBA1]
      = [{ email := "A", owedAmount := -1, owesAmount := -1 },
         { email := "B", owedAmount := -1, owesAmount := -1 }] := by
  rw [calculateGroupBalances_def]
  simp [memKeys, applySettlementGroup_apply, setAB1, setBA1]

/-- Evaluation of `calculateGroupBalances` on empty inputs (shared helper). -/
lemma groupBalances_empty_eval :
    calculateGroupBalances ["A", "B"] [] []
      = [{ email := "A", owedAmount := 0, owesAmount := 0 },
         { email := "B", owedAmount := 0, owesAmount := 0 }] := by
  rw [calculateGroupBalances_def]
  simp [memKeys]

/-- C3 (counterexample): appending a settlement and its exact inverse does
not restore the output of `calculateGroupBalances` — with an empty history
and the pair `{A→B, 1}`, `{B→A, 1}`, every accumulator of both members
drops by 1 instead of returning to 0, so the claim fails for the gross
group-balance view. -/
theorem settlement_inverse_group_counterexample :
    calculateGroupBalances ["A", "B"] [] ([] ++ [setAB1, setBA1])
      ≠ calculateGroupBalances ["A", "B"] [] [] := by
  rw [List.nil_append, groupBalances_inverse_pair_eval, groupBalances_empty_eval]
  intro hcon
  simp only [List.cons.injEq, GroupBalanceEntry.mk.injEq] at hcon
  exact absurd hcon.1.2.1 (by norm_num)

/-- C3 (amended): appending a settlement `{paidBy = A, paidTo = B, amount = X}`
followed by its exact inverse `{paidBy = B, paidTo = A, amount = X}` to any
history leaves the output of the signed view `calculateBalances` (the
spec's `computeUserBalances`) unchanged; the gross view
`calculateGroupBalances` does not enjoy this symmetry (see the
counterexample). -/
theorem settlement_inverse_signed_restores (u : String) (members : List String)
    (expenses : List Expense) (settlements : List Settlement)
    (g A B : String) (X : ℚ) (hX : 0 < X) :
    calculateBalances u members expenses
        (settlements ++ [{ groupId := g, paidBy := A, paidTo := B, amount := X },
                         { groupId := g, paidBy := B, paidTo := A, amount := X }])
      = calculateBalances u members expenses settlements := by
  rw [calculateBalances_def, calculateBalances_def, List.foldl_append]
  congr 1
  rw [List.foldl_cons, List.foldl_cons, List.foldl_nil]
  funext x
  rw [applySettlementSigned_apply, applySettlementSigned_apply]
  simp only []
  ring

/-- C3 witness: the amended symmetry instantiated on the scenario group. -/
theorem settlement_inverse_signed_restores_witness :
    (0 : ℚ) < 30 ∧
    calculateBalances "B" ["A", "B", "C"] [expABC]
        ([] ++ [{ groupId := "g1", paidBy := "B", paidTo := "A", amount := 30 },
                { groupId := "g1", paidBy := "A", paidTo := "B", amount := 30 }])
      = calculateBalances "B" ["A", "B", "C"] [expABC] [] :=
  ⟨by norm_num,
   settlement_inverse_signed_restores "B" ["A", "B", "C"] [expABC] [] "g1" "B" "A" 30
     (by norm_num)⟩

/-! ## Claim C9 — non-negative accumulators -/

/-- One expense step of `calculateGroupBalances` preserves pointwise
non-negativity of both accumulators. -/
lemma applyExpenseGroup_nonneg (members : List String) (b : String → OwedOwes) (e : Expense)
    (hb : ∀ m, 0 ≤ (b m).owedAmount ∧ 0 ≤ (b m).owesAmount) :
    ∀ m, 0 ≤ (applyExpenseGroup members b e m).owedAmount ∧
      0 ≤ (applyExpenseGroup members b e m).owesAmount := by
  intro m
  by_cases h : skipExpense e
  · rw [applyExpenseGroup_skip _ _ _ h]
    exact hb m
  · rw [applyExpenseGroup_apply _ _ _ h]
    obtain ⟨hsplit, hamt⟩ := (not_skipExpense e).mp h
    have hp : 0 ≤ e.amount / (e.splitAmong.length : ℚ) := by
      apply div_nonneg hamt.le
      exact_mod_cast Nat.zero_le _
    refine ⟨add_nonneg (hb m).1 ?_, add_nonneg (hb m).2 ?_⟩
    · split_ifs
      · exact mul_nonneg hp (by exact_mod_cast Nat.zero_le _)
      · exact le_refl 0
    · split_ifs
      · exact mul_nonneg (by exact_mod_cast Nat.zero_le _) hp
      · exact le_refl 0

/-- The whole expense loop of `calculateGroupBalances` preserves pointwise
non-negativity. -/
lemma foldl_expenses_group_nonneg (members : List String) (expenses : List Expense) :
    ∀ b : String → OwedOwes, (∀ m, 0 ≤ (b m).owedAmount ∧ 0 ≤ (b m).owesAmount) →
      ∀ m, 0 ≤ ((expenses.foldl (applyExpenseGroup members) b) m).owedAmount ∧
        0 ≤ ((expenses.foldl (applyExpenseGroup members) b) m).owesAmount := by
  induction expenses with
  | nil => intro b hb; simpa using hb
  | cons e t ih =>
    intro b hb
    rw [List.foldl_cons]
    exact ih _ (applyExpenseGroup_nonneg members b e hb)

/-- C9 (amended): in the absence of settlements, every entry of the
`calculateGroupBalances` output has `owedAmount ≥ 0` and `owesAmount ≥ 0`,
for arbitrary expense lists; the settlement adjustment violates this (see
the counterexample). -/
theorem groupBalances_nonneg_without_settlements (members : List String)
    (expenses : List Expense) (entry : GroupBalanceEntry)
    (h : entry ∈ calculateGroupBalances members expenses []) :
    0 ≤ entry.owedAmount ∧ 0 ≤ entry.owesAmount := by
  rw [calculateGroupBalances_def] at h
  rcases List.mem_map.mp h with ⟨m, hm, rfl⟩
  simp only [List.foldl_nil]
  exact foldl_expenses_group_nonneg members expenses
    (fun _ => { owedAmount := 0, owesAmount := 0 }) (fun _ => ⟨le_refl 0, le_refl 0⟩) m

/-- Full evaluation of `calculateGroupBalances` on a single settlement with
no expenses (shared helper): the payer's `owedAmount` and the recipient's
`owesAmount` go negative. -/
lemma groupBalances_settlement_only_eval :
    calculateGroupBalances ["A", "B"] [] [setAB1]
      = [{ email := "A", owedAmount := -1, owesAmount := 0 },
         { email := "B", owedAmount := 0, owesAmount := -1 }] := by
  rw [calculateGroupBalances_def]
  simp [memKeys, applySettlementGroup_apply, setAB1]

/-- C9 (counterexample): with the well-formed input of no expenses and the
single settlement `{paidBy: A, paidTo: B, amount: 1}` (amount positive),
the output of `calculateGroupBalances` contains a negative accumulator:
A's `owedAmount` is −1. -/
theorem groupBalances_nonneg_counterexample :
    ¬ (∀ entry ∈ calculateGroupBalances ["A", "B"] [] [setAB1],
        0 ≤ entry.owedAmount ∧ 0 ≤ entry.owesAmount) := by
  intro hall
  have hmem : ({ email := "A", owedAmount := -1, owesAmount := 0 } : GroupBalanceEntry)
      ∈ calculateGroupBalances ["A", "B"] [] [setAB1] := by
    rw [groupBalances_settlement_only_eval]
    simp
  have := (hall _ hmem).1
  norm_num at this

/-- C9 witness: the amended non-negativity applied to the scenario
expense-only group balance. -/
theorem groupBalances_nonneg_without_settlements_witness :
    (({ email := "A", owedAmount := 60, owesAmount := 0 } : GroupBalanceEntry)
      ∈ calculateGroupBalances ["A", "B", "C"] [expABC] []) ∧
    (0 ≤ ({ email := "A", owedAmount := 60, owesAmount := 0 } : GroupBalanceEntry).owedAmount ∧
     0 ≤ ({ email := "A", owedAmount := 60, owesAmount := 0 } : GroupBalanceEntry).owesAmount) := by
  have hmem : ({ email := "A", owedAmount := 60, owesAmount := 0 } : GroupBalanceEntry)
      ∈ calculateGroupBalances ["A", "B", "C"] [expABC] [] := by
    rw [groupBalances_scenario_eval]
    simp
  exact ⟨hmem, groupBalances_nonneg_without_settlements ["A", "B", "C"] [expABC] _ hmem⟩

end Evenly

namespace Evenly

/-! ## Claim C1 — conservation of money for the signed accumulation -/

/-- C1 (amended): for any group member list and any expense with positive
amount, non-empty `splitAmong`, payer a group member and every split
participant a group member, one step of the signed balance accumulation of
`calculateBalances` (the spec's `computeUserBalances`) preserves the sum of
balances over the group — the per-member signed deltas sum to zero.  (The
unamended claim, with `splitAmong` ranging over arbitrary identifier lists,
is refuted by the counterexample.) -/
theorem conservation_signed_members (members : List String) (e : Expense) (b : String → ℚ)
    (hamt : 0 < e.amount) (hsplit : e.splitAmong ≠ [])
    (hpayer : e.paidBy ∈ members) (hsub : ∀ m ∈ e.splitAmong, m ∈ members) :
    ((memKeys members).map (applyExpenseSigned members b e)).sum
      = ((memKeys members).map b).sum := by
  have hskip : ¬ skipExpense e := (not_skipExpense e).mpr ⟨hsplit, hamt⟩
  rw [List.map_congr_left (fun x _ => applyExpenseSigned_apply members b e hskip x)]
  rw [show (fun x => b x
        + (if x = e.paidBy ∧ e.paidBy ∈ members ∧
              0 < (e.splitAmong.filter (fun m => m ≠ e.paidBy)).length then
            (e.amount / (e.splitAmong.length : ℚ))
              * (((e.splitAmong.filter (fun m => m ≠ e.paidBy)).length : ℕ) : ℚ)
          else 0)
        - (if x ∈ members then
            (((e.splitAmong.filter (fun m => m ≠ e.paidBy)).count x : ℕ) : ℚ)
              * (e.amount / (e.splitAmong.length : ℚ))
          else 0))
      = fun x => (b x
        + (if x = e.paidBy ∧ e.paidBy ∈ members ∧
              0 < (e.splitAmong.filter (fun m => m ≠ e.paidBy)).length then
            (e.amount / (e.splitAmong.length : ℚ))
              * (((e.splitAmong.filter (fun m => m ≠ e.paidBy)).length : ℕ) : ℚ)
          else 0))
        - (if x ∈ members then
            (((e.splitAmong.filter (fun m => m ≠ e.paidBy)).count x : ℕ) : ℚ)
              * (e.amount / (e.splitAmong.length : ℚ))
          else 0) from rfl]
  rw [sum_map_sub, sum_map_add]
  have hcharge : ((memKeys members).map (fun x =>
      if x ∈ members then
        (((e.splitAmong.filter (fun m => m ≠ e.paidBy)).count x : ℕ) : ℚ)
          * (e.amount / (e.splitAmong.length : ℚ))
      else 0)).sum
      = (((e.splitAmong.filter (fun m => m ≠ e.paidBy)).length : ℕ) : ℚ)
          * (e.amount / (e.splitAmong.length : ℚ)) := by
    rw [List.map_congr_left (fun x hx => by
      rw [if_pos ((mem_memKeys members x).mp hx)] :
      ∀ x ∈ memKeys members, _ = (((e.splitAmong.filter
        (fun m => m ≠ e.paidBy)).count x : ℕ) : ℚ) * (e.amount / (e.splitAmong.length : ℚ)))]
    rw [sum_map_mul_right, sum_map_count (memKeys members) (memKeys_nodup members)]
    intro y hy
    exact (mem_memKeys members y).mpr (hsub y (List.mem_of_mem_filter hy))
  by_cases hlen : 0 < (e.splitAmong.filter (fun m => m ≠ e.paidBy)).length
  · have hcredit : ((memKeys members).map (fun x =>
        if x = e.paidBy ∧ e.paidBy ∈ members ∧
            0 < (e.splitAmong.filter (fun m => m ≠ e.paidBy)).length then
          (e.amount / (e.splitAmong.length : ℚ))
            * (((e.splitAmong.filter (fun m => m ≠ e.paidBy)).length : ℕ) : ℚ)
        else 0)).sum
        = (e.amount / (e.splitAmong.length : ℚ))
            * (((e.splitAmong.filter (fun m => m ≠ e.paidBy)).length : ℕ) : ℚ) := by
      rw [List.map_congr_left (fun x _ => by
        by_cases hx : x = e.paidBy
        · rw [if_pos ⟨hx, hpayer, hlen⟩, if_pos hx]
        · rw [if_neg (fun hcon => hx hcon.1), if_neg hx] :
        ∀ x ∈ memKeys members, _ = if x = e.paidBy then
          (e.amount / (e.splitAmong.length : ℚ))
            * (((e.splitAmong.filter (fun m => m ≠ e.paidBy)).length : ℕ) : ℚ) else 0)]
      exact sum_map_indicator (memKeys members) e.paidBy _ (memKeys_nodup members)
        ((mem_memKeys members e.paidBy).mpr hpayer)
    rw [hcredit, hcharge]
    ring
  · have hnil : e.splitAmong.filter (fun m => m ≠ e.paidBy) = [] :=
      List.length_eq_zero.mp (Nat.eq_zero_of_not_pos hlen)
    have hcredit0 : ((memKeys members).map (fun x =>
        if x = e.paidBy ∧ e.paidBy ∈ members ∧
            0 < (e.splitAmong.filter (fun m => m ≠ e.paidBy)).length then
          (e.amount / (e.splitAmong.length : ℚ))
            * (((e.splitAmong.filter (fun m => m ≠ e.paidBy)).length : ℕ) : ℚ)
        else 0)).sum = 0 := by
      apply List.sum_eq_zero
      intro q hq
      rcases List.mem_map.mp hq with ⟨x, _, rfl⟩
      rw [if_neg (fun hcon => hlen hcon.2.2)]
    rw [hcredit0, hcharge, hnil]
    simp

/-- C1 (counterexample): with `splitAmong` ranging over arbitrary identifier
lists, conservation fails — for the group `["A"]` and the expense
`{amount: 90, paidBy: A, splitAmong: [A,B,C]}` the deltas over the group
sum to 60, and for the group `["B"]` and the expense
`{amount: 90, paidBy: A, splitAmong: [B]}` (payer outside the group) they
sum to −90. -/
theorem conservation_signed_counterexample :
    (0 < expOutside.amount ∧ expOutside.splitAmong ≠ [] ∧
      ((memKeys ["A"]).map (applyExpenseSigned ["A"] (fun _ => 0) expOutside)).sum ≠ 0) ∧
    (0 < expForeignPayer.amount ∧ expForeignPayer.splitAmong ≠ [] ∧
      ((memKeys ["B"]).map (applyExpenseSigned ["B"] (fun _ => 0) expForeignPayer)).sum ≠ 0) := by
  have hskip1 : ¬ skipExpense expOutside := by
    rw [not_skipExpense]
    refine ⟨by simp [expOutside], by norm_num [expOutside]⟩
  have hskip2 : ¬ skipExpense expForeignPayer := by
    rw [not_skipExpense]
    refine ⟨by simp [expForeignPayer], by norm_num [expForeignPayer]⟩
  have h1 : applyExpenseSigned ["A"] (fun _ => 0) expOutside "A" = 60 := by
    rw [applyExpenseSigned_apply _ _ _ hskip1]
    simp [expOutside]
    norm_num
  have h2 : applyExpenseSigned ["B"] (fun _ => 0) expForeignPayer "B" = -90 := by
    rw [applyExpenseSigned_apply _ _ _ hskip2]
    simp [expForeignPayer]
  refine ⟨⟨by norm_num [expOutside], by simp [expOutside], ?_⟩,
          ⟨by norm_num [expForeignPayer], by simp [expForeignPayer], ?_⟩⟩
  · rw [show memKeys ["A"] = ["A"] by simp [memKeys]]
    rw [List.map_cons, List.map_nil, h1]
    norm_num
  · rw [show memKeys ["B"] = ["B"] by simp [memKeys]]
    rw [List.map_cons, List.map_nil, h2]
    norm_num

/-- C1 witness: conservation instantiated on the scenario expense over the
full member list. -/
theorem conservation_signed_members_witness :
    (0 < expABC.amount ∧ expABC.splitAmong ≠ [] ∧ expABC.paidBy ∈ ["A", "B", "C"] ∧
      (∀ m ∈ expABC.splitAmong, m ∈ ["A", "B", "C"])) ∧
    ((memKeys ["A", "B", "C"]).map
        (applyExpenseSigned ["A", "B", "C"] (fun _ => 0) expABC)).sum
      = ((memKeys ["A", "B", "C"]).map (fun _ => (0 : ℚ))).sum :=
  ⟨⟨by norm_num [expABC], by simp [expABC], by simp [expABC], by simp [expABC]⟩,
   conservation_signed_members ["A", "B", "C"] expABC (fun _ => 0)
     (by norm_num [expABC]) (by simp [expABC]) (by simp [expABC]) (by simp [expABC])⟩

end Evenly

namespace Evenly

/-! ## Claim C7 — payer-credit policy equivalence -/

/-- For an expense with positive amount and non-empty split, one expense
step of the legacy (self-inclusive, Policy A) `calculateBalances` equals
one step of the current (self-exclusive, Policy B) variant: crediting the
payer the full amount and charging the payer's own shares nets to crediting
`perPersonAmount` per non-payer share. -/
lemma applyExpense_old_eq_new (members : List String) (b : String → ℚ) (e : Expense)
    (hamt : 0 < e.amount) (hsplit : e.splitAmong ≠ []) :
    applyExpenseSignedOld members b e = applyExpenseSigned members b e := by
  have hskip : ¬ skipExpense e := (not_skipExpense e).mpr ⟨hsplit, hamt⟩
  funext x
  rw [applyExpenseSignedOld_apply members b e hsplit x,
    applyExpenseSigned_apply members b e hskip x]
  have hn : ((e.splitAmong.length : ℕ) : ℚ) ≠ 0 := splitAmong_length_cast_ne_zero e hsplit
  have hA : (e.amount / (e.splitAmong.length : ℚ)) * ((e.splitAmong.length : ℕ) : ℚ)
      = e.amount := div_mul_cancel₀ _ hn
  have hlen := payingMembers_length_cast e
  by_cases hx : x = e.paidBy
  · subst hx
    by_cases hmem : e.paidBy ∈ members
    · rw [if_pos ⟨rfl, hmem⟩]
      have hcr : (if e.paidBy = e.paidBy ∧ e.paidBy ∈ members ∧
            0 < (e.splitAmong.filter (fun m => m ≠ e.paidBy)).length then
          (e.amount / (e.splitAmong.length : ℚ))
            * (((e.splitAmong.filter (fun m => m ≠ e.paidBy)).length : ℕ) : ℚ)
          else 0)
          = (e.amount / (e.splitAmong.length : ℚ))
            * (((e.splitAmong.filter (fun m => m ≠ e.paidBy)).length : ℕ) : ℚ) := by
        by_cases hlen0 : 0 < (e.splitAmong.filter (fun m => m ≠ e.paidBy)).length
        · rw [if_pos ⟨rfl, hmem, hlen0⟩]
        · rw [if_neg (fun hcon => hlen0 hcon.2.2),
            Nat.eq_zero_of_not_pos hlen0]
          simp
      rw [hcr, if_pos hmem, if_pos hmem]
      have hc0 : (((e.splitAmong.filter (fun m => m ≠ e.paidBy)).count e.paidBy : ℕ) : ℚ)
          = 0 := by
        rw [count_filter_ne_self]
        simp
      rw [hc0, hlen]
      nlinarith [hA]
    · rw [if_neg (fun hcon => hmem hcon.2 :
        ¬(e.paidBy = e.paidBy ∧ e.paidBy ∈ members))]
      rw [if_neg (fun hcon => hmem hcon.2.1 :
        ¬(e.paidBy = e.paidBy ∧ e.paidBy ∈ members ∧
          0 < (e.splitAmong.filter (fun m => m ≠ e.paidBy)).length))]
      rw [if_neg hmem, if_neg hmem]
  · rw [if_neg (fun hcon => hx hcon.1 :
      ¬(x = e.paidBy ∧ e.paidBy ∈ members))]
    rw [if_neg (fun hcon => hx hcon.1 :
      ¬(x = e.paidBy ∧ e.paidBy ∈ members ∧
        0 < (e.splitAmong.filter (fun m => m ≠ e.paidBy)).length))]
    by_cases hxm : x ∈ members
    · rw [if_pos hxm, if_pos hxm]
      have := count_filter_ne_of_ne e.splitAmong e.paidBy x hx
      rw [this]
    · rw [if_neg hxm, if_neg hxm]

/-- Lifting of `applyExpense_old_eq_new` to the whole expense loop. -/
lemma foldl_expenses_old_eq_new (members : List String) (expenses : List Expense)
    (h : ∀ e ∈ expenses, 0 < e.amount ∧ e.splitAmong ≠ []) :
    ∀ b : String → ℚ,
      expenses.foldl (applyExpenseSignedOld members) b
        = expenses.foldl (applyExpenseSigned members) b := by
  induction expenses with
  | nil => intro b; rfl
  | cons e t ih =>
    intro b
    rw [List.foldl_cons, List.foldl_cons,
      applyExpense_old_eq_new members b e (h e (List.mem_cons_self e t)).1
        (h e (List.mem_cons_self e t)).2]
    exact ih (fun e' he' => h e' (List.mem_cons_of_mem e he')) _

/-- C7: on inputs in which every expense has positive amount and non-empty
`splitAmong`, the legacy self-inclusive `calculateBalances` of
`src/unnamed/part_002` (Policy A) and the current self-exclusive
`calculateBalances` of `src/routes/expense.routes.js` (Policy B) produce
identical outputs: in exact arithmetic the two payer-credit policies assign
the same net signed delta to every member. -/
theorem policy_equivalence (currentUserEmail : String) (members : List String)
    (expenses : List Expense) (settlements : List Settlement)
    (h : ∀ e ∈ expenses, 0 < e.amount ∧ e.splitAmong ≠ []) :
    calculateBalancesOld currentUserEmail members expenses settlements
      = calculateBalances currentUserEmail members expenses settlements := by
  rw [calculateBalancesOld_def, calculateBalances_def,
    foldl_expenses_old_eq_new members expenses h]

/-- C7 witness: the two variants agree on the scenario expense and
settlement. -/
theorem policy_equivalence_witness :
    (∀ e ∈ [expABC], 0 < e.amount ∧ e.splitAmong ≠ []) ∧
    calculateBalancesOld "B" ["A", "B", "C"] [expABC] [setBA30]
      = calculateBalances "B" ["A", "B", "C"] [expABC] [setBA30] :=
  ⟨fun e he => by
      rw [List.mem_singleton] at he
      subst he
      exact ⟨by norm_num [expABC], by simp [expABC]⟩,
   policy_equivalence "B" ["A", "B", "C"] [expABC] [setBA30]
     (fun e he => by
       rw [List.mem_singleton] at he
       subst he
       exact ⟨by norm_num [expABC], by simp [expABC]⟩)⟩

end Evenly

namespace Evenly

/-! ## Claim C4 — zero-split exclusion -/

/-- A zero-split expense with positive amount is still counted by
`calculateExpenseSummary`: it adds to `totalExpenses`, to its month bucket
and to the payer's `totalPaid`; only the share loop is skipped. -/
lemma applyExpenseSummary_empty_split (members : List String)
    (st : ℚ × List (String × ℚ) × (String → PaidShare)) (e : Expense)
    (hsplit : e.splitAmong = []) (hamt : 0 < e.amount) :
    applyExpenseSummary members st e
      = (st.1 + e.amount, addEntry st.2.1 e.month e.amount,
         if e.paidBy ∈ members then
           Function.update st.2.2 e.paidBy
             { st.2.2 e.paidBy with totalPaid := (st.2.2 e.paidBy).totalPaid + e.amount }
         else st.2.2) := by
  simp only [applyExpenseSummary]
  rw [if_neg (not_le.mpr hamt),
    if_neg (fun hcon => hcon hsplit : ¬ e.splitAmong ≠ [])]

/-- One step of `calculateExpenseSummary` on a zero-split expense leaves
every member's `totalShare` unchanged. -/
lemma applyExpenseSummary_totalShare_empty (members : List String)
    (st : ℚ × List (String × ℚ) × (String → PaidShare)) (e : Expense)
    (hsplit : e.splitAmong = []) (m : String) :
    ((applyExpenseSummary members st e).2.2 m).totalShare = (st.2.2 m).totalShare := by
  by_cases hamt : e.amount ≤ 0
  · unfold applyExpenseSummary
    rw [if_pos hamt]
  · rw [applyExpenseSummary_empty_split members st e hsplit (not_le.mp hamt)]
    by_cases hpay : e.paidBy ∈ members
    · by_cases hm : m = e.paidBy
      · subst hm
        simp [hpay]
      · simp [hpay, Function.update_noteq hm]
    · simp [hpay]

/-- C4 (counterexample): the zero-split expense `{amount: 100, splitAmong: []}`
does change `computeExpenseSummary` — its `totalExpenses` grows by the full
amount, contradicting the claim that all views (including `totalExpenses`)
are unchanged. -/
theorem zero_split_summary_counterexample :
    (calculateExpenseSummary ["A"] [expEmptySplit]).totalExpenses
      ≠ (calculateExpenseSummary ["A"] []).totalExpenses := by
  have h1 : (calculateExpenseSummary ["A"] [expEmptySplit]).totalExpenses = 100 := by
    rw [calculateExpenseSummary_def]
    simp [applyExpenseSummary, expEmptySplit, show ¬((100 : ℚ) ≤ 0) by norm_num]
  have h2 : (calculateExpenseSummary ["A"] []).totalExpenses = 0 := rfl
  rw [h1, h2]
  norm_num

/-- C4 (amended): an expense with an empty split list contributes nothing to
the three balance views — `calculateGroupBalances`, `calculateBalances` and
`calculateUserOwes` are unchanged when it is appended, and no division by
zero occurs — and contributes nothing to any member's `totalShare`; but
`calculateExpenseSummary` still counts its (positive) amount in
`totalExpenses` (and in the month bucket and payer's `totalPaid`), so the
expense summary is not unchanged. -/
theorem zero_split_exclusion_amended (members : List String) (expenses : List Expense)
    (settlements : List Settlement) (u : String) (gs : List String) (e : Expense)
    (hsplit : e.splitAmong = []) (hamt : 0 < e.amount) :
    calculateGroupBalances members (expenses ++ [e]) settlements
        = calculateGroupBalances members expenses settlements ∧
    calculateBalances u members (expenses ++ [e]) settlements
        = calculateBalances u members expenses settlements ∧
    calculateUserOwes u (expenses ++ [e]) settlements gs
        = calculateUserOwes u expenses settlements gs ∧
    (calculateExpenseSummary members (expenses ++ [e])).totalExpenses
        = (calculateExpenseSummary members expenses).totalExpenses + e.amount ∧
    (calculateExpenseSummary members (expenses ++ [e])).expensesByMember.map
          MemberStats.totalShare
        = (calculateExpenseSummary members expenses).expensesByMember.map
          MemberStats.totalShare := by
  have hskip : skipExpense e := Or.inl hsplit
  have h1 : ∀ b : String → OwedOwes,
      (expenses ++ [e]).foldl (applyExpenseGroup members) b
        = expenses.foldl (applyExpenseGroup members) b := fun b => by
    rw [List.foldl_append, List.foldl_cons, List.foldl_nil,
      applyExpenseGroup_skip _ _ _ hskip]
  have h2 : ∀ b : String → ℚ,
      (expenses ++ [e]).foldl (applyExpenseSigned members) b
        = expenses.foldl (applyExpenseSigned members) b := fun b => by
    rw [List.foldl_append, List.foldl_cons, List.foldl_nil,
      applyExpenseSigned_skip _ _ _ hskip]
  have h3 : (expenses ++ [e]).foldl (applyExpenseOwes u) []
        = expenses.foldl (applyExpenseOwes u) [] := by
    rw [List.foldl_append, List.foldl_cons, List.foldl_nil,
      applyExpenseOwes_skip _ _ _ hskip]
  have h4 : (expenses ++ [e]).foldl (applyExpenseSummary members)
        (0, [], fun _ => { totalPaid := 0, totalShare := 0 })
      = applyExpenseSummary members
          (expenses.foldl (applyExpenseSummary members)
            (0, [], fun _ => { totalPaid := 0, totalShare := 0 })) e := by
    rw [List.foldl_append, List.foldl_cons, List.foldl_nil]
  refine ⟨?_, ?_, ?_, ?_, ?_⟩
  · rw [calculateGroupBalances_def, calculateGroupBalances_def, h1]
  · rw [calculateBalances_def, calculateBalances_def, h2]
  · unfold calculateUserOwes owedByGroupMap
    rw [h3]
  · rw [calculateExpenseSummary_def, calculateExpenseSummary_def]
    simp only [h4]
    rw [applyExpenseSummary_empty_split members _ e hsplit hamt]
  · rw [calculateExpenseSummary_def, calculateExpenseSummary_def]
    simp only [h4, List.map_map]
    refine List.map_congr_left (fun m _ => ?_)
    simp only [Function.comp_apply]
    rw [applyExpenseSummary_totalShare_empty members _ e hsplit m]

/-- C4 witness: the amendment instantiated on the zero-split scenario
expense. -/
theorem zero_split_exclusion_amended_witness :
    (expEmptySplit.splitAmong = [] ∧ 0 < expEmptySplit.amount) ∧
    (calculateGroupBalances ["A"] ([] ++ [expEmptySplit]) []
        = calculateGroupBalances ["A"] [] [] ∧
     calculateBalances "B" ["A"] ([] ++ [expEmptySplit]) []
        = calculateBalances "B" ["A"] [] [] ∧
     calculateUserOwes "B" ([] ++ [expEmptySplit]) [] []
        = calculateUserOwes "B" [] [] [] ∧
     (calculateExpenseSummary ["A"] ([] ++ [expEmptySplit])).totalExpenses
        = (calculateExpenseSummary ["A"] []).totalExpenses + expEmptySplit.amount ∧
     (calculateExpenseSummary ["A"] ([] ++ [expEmptySplit])).expensesByMember.map
          MemberStats.totalShare
        = (calculateExpenseSummary ["A"] []).expensesByMember.map
          MemberStats.totalShare) :=
  ⟨⟨by simp [expEmptySplit], by norm_num [expEmptySplit]⟩,
   zero_split_exclusion_amended ["A"] [] [] "B" [] expEmptySplit
     (by simp [expEmptySplit]) (by norm_num [expEmptySplit])⟩

end Evenly

namespace Evenly

/-! ## Claim C10 — settlements received are ignored by `calculateUserOwes` -/

/-- A settlement not paid by the current user leaves the `owedByGroup`
accumulator untouched. -/
lemma applySettlementOwes_skip (userId : String) (m : List (String × List (String × ℚ)))
    (s : Settlement) (h : s.paidBy ≠ userId) : applySettlementOwes userId m s = m := by
  unfold applySettlementOwes
  rw [if_neg h]

/-- The settlement loop of `calculateUserOwes` only sees the settlements
paid by the current user. -/
lemma foldl_settlements_owes_filter (userId : String) (settlements : List Settlement) :
    ∀ m : List (String × List (String × ℚ)),
      settlements.foldl (applySettlementOwes userId) m
        = (settlements.filter (fun s => s.paidBy = userId)).foldl
            (applySettlementOwes userId) m := by
  induction settlements with
  | nil => intro m; rfl
  | cons s t ih =>
    intro m
    by_cases h : s.paidBy = userId
    · rw [List.foldl_cons, List.filter_cons_of_pos (by simp [h]), List.foldl_cons, ih]
    · rw [List.foldl_cons, List.filter_cons_of_neg (by simp [h]),
        applySettlementOwes_skip userId m s h, ih]

/-- C10: two invocations of `calculateUserOwes` (the spec's
`computeCrossGroupOwed`) whose settlement lists agree on the settlements
paid by the current user — i.e. differ only in settlements whose `paidBy`
is someone else, such as payments the user received — produce identical
outputs. -/
theorem userOwes_ignores_received_settlements (userId : String) (expenses : List Expense)
    (settlements1 settlements2 : List Settlement) (gs : List String)
    (hfilter : settlements1.filter (fun s => s.paidBy = userId)
      = settlements2.filter (fun s => s.paidBy = userId)) :
    calculateUserOwes userId expenses settlements1 gs
      = calculateUserOwes userId expenses settlements2 gs := by
  unfold calculateUserOwes owedByGroupMap
  rw [foldl_settlements_owes_filter, hfilter, ← foldl_settlements_owes_filter]

/-- C10 witness: a settlement received by B (paid by A) does not change B's
cross-group owed view. -/
theorem userOwes_ignores_received_settlements_witness :
    ([{ groupId := "g1", paidBy := "A", paidTo := "B", amount := 5 }]
        : List Settlement).filter (fun s => s.paidBy = "B")
      = ([] : List Settlement).filter (fun s => s.paidBy = "B") ∧
    calculateUserOwes "B" [expABC]
        [{ groupId := "g1", paidBy := "A", paidTo := "B", amount := 5 }] []
      = calculateUserOwes "B" [expABC] [] [] :=
  ⟨by simp,
   userOwes_ignores_received_settlements "B" [expABC]
     [{ groupId := "g1", paidBy := "A", paidTo := "B", amount := 5 }] [] [] (by simp)⟩

end Evenly

namespace Evenly

/-! ## Claim C8 — postcondition of the cross-group owed view -/

/-- Closed form of the inner formatting loop of `calculateUserOwes`: it
appends one record per strictly positive entry and adds the corresponding
amounts. -/
lemma emit_inner (g : String) (l : List (String × ℚ)) :
    ∀ st : ℚ × List OweRecord,
      l.foldl
        (fun (st : ℚ × List OweRecord) pv =>
          if 0 < pv.2 then
            (st.1 + pv.2, st.2 ++ [{ groupId := g, owedTo := pv.1, amount := pv.2 }])
          else st) st
      = (st.1 + ((l.filter (fun pv => 0 < pv.2)).map Prod.snd).sum,
         st.2 ++ (l.filter (fun pv => 0 < pv.2)).map
           (fun pv => ({ groupId := g, owedTo := pv.1, amount := pv.2 } : OweRecord))) := by
  induction l with
  | nil => intro st; simp
  | cons pv t ih =>
    intro st
    rw [List.foldl_cons]
    by_cases hpv : 0 < pv.2
    · rw [if_pos hpv, ih, List.filter_cons_of_pos (by simp [hpv])]
      simp only [List.map_cons, List.sum_cons, Prod.mk.injEq]
      constructor
      · ring
      · rw [List.append_assoc]
        rfl
    · rw [if_neg hpv, ih, List.filter_cons_of_neg (by simp [hpv])]

/-- Closed form of the full formatting double loop of `calculateUserOwes`. -/
lemma emit_outer (mm : List (String × List (String × ℚ))) :
    ∀ st : ℚ × List OweRecord,
      mm.foldl
        (fun st gp =>
          gp.2.foldl
            (fun (st : ℚ × List OweRecord) pv =>
              if 0 < pv.2 then
                (st.1 + pv.2, st.2 ++ [{ groupId := gp.1, owedTo := pv.1, amount := pv.2 }])
              else st) st) st
      = (st.1 + (mm.map (fun gp =>
            ((gp.2.filter (fun pv => 0 < pv.2)).map Prod.snd).sum)).sum,
         st.2 ++ (mm.map (fun gp =>
            (gp.2.filter (fun pv => 0 < pv.2)).map
              (fun pv => ({ groupId := gp.1, owedTo := pv.1, amount := pv.2 } : OweRecord)))).join) := by
  induction mm with
  | nil => intro st; simp
  | cons gp t ih =>
    intro st
    rw [List.foldl_cons, emit_inner gp.1 gp.2 st, ih]
    simp only [List.map_cons, List.sum_cons, List.flatten_cons, Prod.mk.injEq]
    constructor
    · ring
    · rw [List.append_assoc]

/-- The `oweDetails` output of `emitOwes` is exactly the list of strictly
positive entries of the accumulated map, and `totalAmount` is the sum of
the emitted amounts. -/
lemma emitOwes_spec (mm : List (String × List (String × ℚ))) :
    (emitOwes mm).oweDetails
      = (mm.map (fun gp =>
          (gp.2.filter (fun pv => 0 < pv.2)).map
            (fun pv => ({ groupId := gp.1, owedTo := pv.1, amount := pv.2 } : OweRecord)))).join ∧
    (emitOwes mm).totalAmount = ((emitOwes mm).oweDetails.map OweRecord.amount).sum := by
  have h := emit_outer mm ((0 : ℚ), ([] : List OweRecord))
  have hdef : emitOwes mm
      = { totalAmount := (mm.foldl
            (fun st gp =>
              gp.2.foldl
                (fun (st : ℚ × List OweRecord) pv =>
                  if 0 < pv.2 then
                    (st.1 + pv.2, st.2 ++ [{ groupId := gp.1, owedTo := pv.1, amount := pv.2 }])
                  else st) st) ((0 : ℚ), ([] : List OweRecord))).1,
          oweDetails := (mm.foldl
            (fun st gp =>
              gp.2.foldl
                (fun (st : ℚ × List OweRecord) pv =>
                  if 0 < pv.2 then
                    (st.1 + pv.2, st.2 ++ [{ groupId := gp.1, owedTo := pv.1, amount := pv.2 }])
                  else st) st) ((0 : ℚ), ([] : List OweRecord))).2 } := rfl
  rw [hdef, h]
  simp only [zero_add, List.nil_append]
  refine ⟨trivial, ?_⟩
  rw [List.map_join, List.sum_join]
  congr 1
  rw [List.map_map, List.map_map]
  refine List.map_congr_left (fun gp _ => ?_)
  simp only [Function.comp_apply]
  rw [List.map_map]
  rfl

end Evenly

namespace Evenly

/-- `addEntry` either updates an existing key in place or appends the new
key at the end. -/
lemma addEntry_keys (p : String) (v : ℚ) :
    ∀ l : List (String × ℚ),
      (addEntry l p v).map Prod.fst
        = if p ∈ l.map Prod.fst then l.map Prod.fst else l.map Prod.fst ++ [p] := by
  intro l
  induction l with
  | nil => simp [addEntry]
  | cons kv t ih =>
    obtain ⟨k1, k2⟩ := kv
    unfold addEntry
    by_cases hk : k1 = p
    · rw [if_pos hk]
      simp [hk]
    · rw [if_neg hk]
      simp only [List.map_cons, ih]
      by_cases hp : p ∈ t.map Prod.fst
      · rw [if_pos hp, if_pos (List.mem_cons_of_mem _ hp)]
      · rw [if_neg hp, if_neg (by
          intro hcon
          rcases List.mem_cons.mp hcon with h | h
          · exact hk h.symm
          · exact hp h)]
        simp

/-- `addEntry` preserves duplicate-freedom of the keys. -/
lemma addEntry_keys_nodup (l : List (String × ℚ)) (p : String) (v : ℚ)
    (h : (l.map Prod.fst).Nodup) : ((addEntry l p v).map Prod.fst).Nodup := by
  rw [addEntry_keys]
  by_cases hp : p ∈ l.map Prod.fst
  · rw [if_pos hp]
    exact h
  · rw [if_neg hp]
    simp [List.nodup_append, h, hp]

/-- `subEntry` never changes the key list. -/
lemma subEntry_keys (p : String) (v : ℚ) :
    ∀ l : List (String × ℚ), (subEntry l p v).map Prod.fst = l.map Prod.fst := by
  intro l
  induction l with
  | nil => simp [subEntry]
  | cons kv t ih =>
    obtain ⟨k1, k2⟩ := kv
    unfold subEntry
    by_cases hk : k1 = p
    · rw [if_pos hk]
      by_cases hv : k2 ≠ 0
      · rw [if_pos hv]
        simp
      · rw [if_neg hv]
    · rw [if_neg hk]
      simp only [List.map_cons, ih]

/-- The key list of `addOwed`: update in place or append the new group. -/
lemma addOwed_keys (g p : String) (v : ℚ) :
    ∀ m : List (String × List (String × ℚ)),
      (addOwed m g p v).map Prod.fst
        = if g ∈ m.map Prod.fst then m.map Prod.fst else m.map Prod.fst ++ [g] := by
  intro m
  induction m with
  | nil => simp [addOwed]
  | cons gm t ih =>
    obtain ⟨g1, mm⟩ := gm
    unfold addOwed
    by_cases hg : g1 = g
    · rw [if_pos hg]
      simp [hg]
    · rw [if_neg hg]
      simp only [List.map_cons, ih]
      by_cases hp : g ∈ t.map Prod.fst
      · rw [if_pos hp, if_pos (List.mem_cons_of_mem _ hp)]
      · rw [if_neg hp, if_neg (by
          intro hcon
          rcases List.mem_cons.mp hcon with h | h
          · exact hg h.symm
          · exact hp h)]
        simp

/-- `addOwed` preserves the well-formedness invariant. -/
lemma addOwed_wf (g p : String) (v : ℚ) :
    ∀ m : List (String × List (String × ℚ)), OwesMapWF m → OwesMapWF (addOwed m g p v) := by
  intro m
  induction m with
  | nil =>
    intro _
    refine ⟨by simp [addOwed], ?_⟩
    intro gp hgp
    rw [show addOwed [] g p v = [(g, [(p, v)])] from rfl] at hgp
    rcases List.mem_singleton.mp hgp with rfl
    simp
  | cons gm t ih =>
    intro hwf
    obtain ⟨g1, mm⟩ := gm
    have hnd : g1 ∉ t.map Prod.fst ∧ (t.map Prod.fst).Nodup := by
      have h1 := hwf.1
      rw [List.map_cons, List.nodup_cons] at h1
      exact h1
    have hwt : OwesMapWF t :=
      ⟨hnd.2, fun gp hgp => hwf.2 gp (List.mem_cons_of_mem _ hgp)⟩
    unfold addOwed
    by_cases hg : g1 = g
    · rw [if_pos hg]
      refine ⟨by simpa using hwf.1, ?_⟩
      intro gp hgp
      rcases List.mem_cons.mp hgp with rfl | hgp
      · exact addEntry_keys_nodup mm p v (hwf.2 (g1, mm) (List.mem_cons_self _ t))
      · exact hwf.2 gp (List.mem_cons_of_mem _ hgp)
    · rw [if_neg hg]
      have hih := ih hwt
      refine ⟨?_, ?_⟩
      · rw [List.map_cons, List.nodup_cons]
        refine ⟨?_, hih.1⟩
        rw [addOwed_keys]
        by_cases hp : g ∈ t.map Prod.fst
        · rw [if_pos hp]
          exact hnd.1
        · rw [if_neg hp]
          intro hcon
          rcases List.mem_append.mp hcon with h | h
          · exact hnd.1 h
          · exact hg (List.mem_singleton.mp h)
      · intro gp hgp
        rcases List.mem_cons.mp hgp with rfl | hgp
        · exact hwf.2 (g1, mm) (List.mem_cons_self _ t)
        · exact hih.2 gp hgp

/-- The key list of `subOwed` is unchanged. -/
lemma subOwed_keys (g p : String) (v : ℚ) :
    ∀ m : List (String × List (String × ℚ)),
      (subOwed m g p v).map Prod.fst = m.map Prod.fst := by
  intro m
  induction m with
  | nil => simp [subOwed]
  | cons gm t ih =>
    obtain ⟨g1, mm⟩ := gm
    unfold subOwed
    by_cases hg : g1 = g
    · rw [if_pos hg]
      simp
    · rw [if_neg hg]
      simp only [List.map_cons, ih]

/-- `subOwed` preserves the well-formedness invariant (it never changes any
key list). -/
lemma subOwed_wf (g p : String) (v : ℚ) :
    ∀ m : List (String × List (String × ℚ)), OwesMapWF m → OwesMapWF (subOwed m g p v) := by
  intro m
  induction m with
  | nil => intro h; simpa [subOwed] using h
  | cons gm t ih =>
    intro hwf
    obtain ⟨g1, mm⟩ := gm
    have hnd : g1 ∉ t.map Prod.fst ∧ (t.map Prod.fst).Nodup := by
      have h1 := hwf.1
      rw [List.map_cons, List.nodup_cons] at h1
      exact h1
    have hwt : OwesMapWF t :=
      ⟨hnd.2, fun gp hgp => hwf.2 gp (List.mem_cons_of_mem _ hgp)⟩
    unfold subOwed
    by_cases hg : g1 = g
    · rw [if_pos hg]
      refine ⟨by simpa using hwf.1, ?_⟩
      intro gp hgp
      rcases List.mem_cons.mp hgp with rfl | hgp
      · rw [subEntry_keys]
        exact hwf.2 (g1, mm) (List.mem_cons_self _ t)
      · exact hwf.2 gp (List.mem_cons_of_mem _ hgp)
    · rw [if_neg hg]
      have hih := ih hwt
      refine ⟨?_, ?_⟩
      · rw [List.map_cons, List.nodup_cons]
        refine ⟨?_, hih.1⟩
        rw [subOwed_keys]
        exact hnd.1
      · intro gp hgp
        rcases List.mem_cons.mp hgp with rfl | hgp
        · exact hwf.2 (g1, mm) (List.mem_cons_self _ t)
        · exact hih.2 gp hgp

/-- The fully accumulated `owedByGroup` map is well-formed. -/
lemma owedByGroupMap_wf (userId : String) (expenses : List Expense)
    (settlements : List Settlement) :
    OwesMapWF (owedByGroupMap userId expenses settlements) := by
  unfold owedByGroupMap
  have hexp : ∀ (es : List Expense) (m : List (String × List (String × ℚ))), OwesMapWF m →
      OwesMapWF (es.foldl (applyExpenseOwes userId) m) := by
    intro es
    induction es with
    | nil => intro m hm; simpa using hm
    | cons e t ih =>
      intro m hm
      rw [List.foldl_cons]
      refine ih _ ?_
      unfold applyExpenseOwes
      split_ifs
      · exact hm
      · exact addOwed_wf _ _ _ m hm
      · exact hm
  have hset : ∀ (ss : List Settlement) (m : List (String × List (String × ℚ))), OwesMapWF m →
      OwesMapWF (ss.foldl (applySettlementOwes userId) m) := by
    intro ss
    induction ss with
    | nil => intro m hm; simpa using hm
    | cons s t ih =>
      intro m hm
      rw [List.foldl_cons]
      refine ih _ ?_
      unfold applySettlementOwes
      split_ifs
      · exact subOwed_wf _ _ _ m hm
      · exact hm
  exact hset settlements _ (hexp expenses [] ⟨List.nodup_nil, by simp⟩)

/-- In a list with duplicate-free first components, entries are determined
by their first component. -/
lemma eq_of_fst_mem_nodup {β : Type} {l : List (String × β)}
    (hnd : (l.map Prod.fst).Nodup) {x y : String × β}
    (hx : x ∈ l) (hy : y ∈ l) (hfst : x.1 = y.1) : x = y :=
  List.inj_on_of_nodup_map hnd hx hy hfst

end Evenly

namespace Evenly

/-- C8: for every input, every record emitted in `oweDetails` by
`calculateUserOwes` (the spec's `computeCrossGroupOwed`) has strictly
positive amount; `totalAmount` equals the sum of the emitted amounts; and
every `(groupId, payer)` entry of the accumulated map whose remaining value
is zero or negative is omitted from `oweDetails`. -/
theorem userOwes_postcondition (userId : String) (expenses : List Expense)
    (settlements : List Settlement) (gs : List String) :
    (∀ rec ∈ (calculateUserOwes userId expenses settlements gs).oweDetails,
        0 < rec.amount) ∧
    (calculateUserOwes userId expenses settlements gs).totalAmount
      = ((calculateUserOwes userId expenses settlements gs).oweDetails.map
          OweRecord.amount).sum ∧
    (∀ gp ∈ owedByGroupMap userId expenses settlements, ∀ pv ∈ gp.2, pv.2 ≤ 0 →
      ∀ rec ∈ (calculateUserOwes userId expenses settlements gs).oweDetails,
        ¬(rec.groupId = gp.1 ∧ rec.owedTo = pv.1)) := by
  have hspec := emitOwes_spec (owedByGroupMap userId expenses settlements)
  have hdef : calculateUserOwes userId expenses settlements gs
      = emitOwes (owedByGroupMap userId expenses settlements) := rfl
  refine ⟨?_, ?_, ?_⟩
  · intro rec hrec
    rw [hdef, hspec.1] at hrec
    obtain ⟨l, hl, hrl⟩ := List.mem_flatten.mp hrec
    obtain ⟨gp, hgp, rfl⟩ := List.mem_map.mp hl
    obtain ⟨pv, hpv, rfl⟩ := List.mem_map.mp hrl
    have hpos := (List.mem_filter.mp hpv).2
    simpa using hpos
  · rw [hdef]
    exact hspec.2
  · intro gp hgp pv hpv hle rec hrec hcon
    rw [hdef, hspec.1] at hrec
    obtain ⟨l, hl, hrl⟩ := List.mem_flatten.mp hrec
    obtain ⟨gp', hgp', rfl⟩ := List.mem_map.mp hl
    obtain ⟨pv', hpv', rfl⟩ := List.mem_map.mp hrl
    have hwf := owedByGroupMap_wf userId expenses settlements
    have hgpeq : gp' = gp := eq_of_fst_mem_nodup hwf.1 hgp' hgp (by simpa using hcon.1)
    subst hgpeq
    have hpv'mem : pv' ∈ gp'.2 := List.mem_of_mem_filter hpv'
    have hpveq : pv' = pv :=
      eq_of_fst_mem_nodup (hwf.2 gp' hgp') hpv'mem hpv (by simpa using hcon.2)
    have hpos := (List.mem_filter.mp hpv').2
    rw [hpveq] at hpos
    simp only [decide_eq_true_eq] at hpos
    linarith

/-- Full evaluation of `calculateUserOwes` for B on the scenario expense
(shared helper). -/
lemma userOwes_scenario_eval :
    calculateUserOwes "B" [expABC] [] []
      = { totalAmount := 30
          oweDetails := [{ groupId := "g1", owedTo := "A", amount := 30 }] } := by
  have hmap : owedByGroupMap "B" [expABC] [] = [("g1", [("A", (30 : ℚ))])] := by
    unfold owedByGroupMap
    rw [List.foldl_nil, List.foldl_cons, List.foldl_nil]
    unfold applyExpenseOwes
    rw [if_neg expABC_not_skip, if_pos ⟨by simp [expABC], by simp [expABC]⟩]
    simp [addOwed, expABC]
    norm_num
  have hdef : calculateUserOwes "B" [expABC] [] []
      = emitOwes (owedByGroupMap "B" [expABC] []) := rfl
  rw [hdef, hmap]
  simp [emitOwes, show (0 : ℚ) < 30 by norm_num]

/-- C8 witness: the postcondition instantiated on the scenario. -/
theorem userOwes_postcondition_witness :
    0 < ({ groupId := "g1", owedTo := "A", amount := 30 } : OweRecord).amount ∧
    (calculateUserOwes "B" [expABC] [] []).totalAmount
      = ((calculateUserOwes "B" [expABC] [] []).oweDetails.map OweRecord.amount).sum :=
  ⟨(userOwes_postcondition "B" [expABC] [] []).1 _
     (by rw [userOwes_scenario_eval]; simp),
   (userOwes_postcondition "B" [expABC] [] []).2.1⟩

end Evenly
